import Mathlib

/-!
Two-class strict-priority packet queue (`priority-queue.cc`).

A shallow embedding of `ns3::PriorityQueue`: the classifier `Classify`, the
admission-controlled `DoEnqueue`, and the strict-priority `DoDequeue` / `DoPeek`.

* `uint32_t` values (`m_bytesInHighQueue`, `m_bytesInLowQueue`, `Packet::GetSize`)
  are natural numbers with every arithmetic result reduced modulo `2^32`.
* The `std::queue<Ptr<Packet>>` buckets are lists, oldest packet first
  (`front` is the head, `push` appends at the tail).
* The calls `Drop (p)` made by `DoEnqueue` are recorded, in order, in `m_dropped`.
-/

namespace ns3

/-- The modulus of `uint32_t` arithmetic, `2^32`. -/
def UINT32_MOD : Nat := 4294967296

/-! ## Packets and their header stack -/

/-- Link-layer (PPP) header. -/
structure PppHeader where
  protocol : Nat
deriving DecidableEq, Repr

/-- Network-layer (IPv4) header; `protocol` is what `GetProtocol` returns. -/
structure Ipv4Header where
  protocol : Nat
  source : Nat
  destination : Nat
deriving DecidableEq, Repr

/-- Transport-layer UDP header; `destinationPort` is what `GetDestinationPort` returns. -/
structure UdpHeader where
  sourcePort : Nat
  destinationPort : Nat
deriving DecidableEq, Repr

/-- One header of a packet's envelope.  A header that `Classify` never parses (a TCP
header, say) is `other`, known by its serialized size and an opaque content tag. -/
inductive Header where
  | ppp (h : PppHeader)
  | ipv4 (h : Ipv4Header)
  | udp (h : UdpHeader)
  | other (size : Nat) (content : Nat)
deriving DecidableEq, Repr

/-- Serialized size in bytes of a header (PPP 2, IPv4 20, UDP 8). -/
def Header.GetSerializedSize : Header → Nat
  | Header.ppp _ => 2
  | Header.ipv4 _ => 20
  | Header.udp _ => 8
  | Header.other size _ => size

/-- A packet: its unique id, its stack of headers (outermost first) and the number of
payload bytes below the headers. -/
structure Packet where
  uid : Nat
  headers : List Header
  payloadSize : Nat
deriving DecidableEq, Repr

/-- Modelled from the spec: `Packet::GetSize` is not part of the source file; the spec gives
a packet "a total byte size", here the headers' sizes plus the payload, as a `uint32_t`. -/
def GetSize (p : Packet) : Nat :=
  ((p.headers.map Header.GetSerializedSize).sum + p.payloadSize) % UINT32_MOD

/-- Modelled from the spec: `Packet::AddHeader` is not part of the source file; it pushes a
header on top of the packet's header stack. -/
def AddHeader (h : Header) (p : Packet) : Packet :=
  { p with headers := h :: p.headers }

/-- Modelled from the spec: `Packet::RemoveHeader` (for a `PppHeader`) is not part of the
source file; it strips the outermost header and returns it.  Packets are assumed structurally
valid, so there is no result when the outermost header is not a PPP header. -/
def RemovePppHeader (p : Packet) : Option (PppHeader × Packet) :=
  match p.headers with
  | Header.ppp h :: rest => some (h, { p with headers := rest })
  | _ => none

/-- Modelled from the spec: `Packet::RemoveHeader` (for an `Ipv4Header`) is not part of the
source file; no result when the outermost header is not an IPv4 header. -/
def RemoveIpv4Header (p : Packet) : Option (Ipv4Header × Packet) :=
  match p.headers with
  | Header.ipv4 h :: rest => some (h, { p with headers := rest })
  | _ => none

/-- Modelled from the spec: `Packet::RemoveHeader` (for a `UdpHeader`) is not part of the
source file; no result when the outermost header is not a UDP header. -/
def RemoveUdpHeader (p : Packet) : Option (UdpHeader × Packet) :=
  match p.headers with
  | Header.udp h :: rest => some (h, { p with headers := rest })
  | _ => none

/-! ## The classifier -/

/-- The branch of `Classify` taken for `protocol == 17`: strip the UDP header, choose the
priority from the destination port, push the UDP header back. -/
def ClassifyUdp (p : Packet) : Option (Nat × Packet) :=
  match RemoveUdpHeader p with
  | none => none
  | some (udp, p1) =>
    let priority : Nat :=
      if udp.destinationPort = 3000 then 1
      else if udp.destinationPort = 2000 then 0
      else 0
    some (priority, AddHeader (Header.udp udp) p1)

/-- `PriorityQueue::Classify`: returns the priority (1, 0 or 2) and the packet as the call
leaves it. -/
def Classify (p : Packet) : Option (Nat × Packet) :=
  match RemovePppHeader p with
  | none => none
  | some (ppp, p1) =>
    match RemoveIpv4Header p1 with
    | none => none
    | some (ip, p2) =>
      let protocol := ip.protocol
      let r : Option (Nat × Packet) :=
        if protocol = 17 then ClassifyUdp p2
        else if protocol = 6 then some (2, p2)
        else some (0, p2)
      match r with
      | none => none
      | some (priority, p3) =>
        some (priority, AddHeader (Header.ppp ppp) (AddHeader (Header.ipv4 ip) p3))

/-! ## The dual-queue store -/

/-- The admission metric. -/
inductive QueueMode where
  | QUEUE_MODE_PACKETS
  | QUEUE_MODE_BYTES
deriving DecidableEq, Repr

/-- The state of a `PriorityQueue` object.  `m_dropped` records the packets passed to
`Drop`, oldest first. -/
structure PriorityQueue where
  m_mode : QueueMode
  m_maxPackets : Nat
  m_maxBytes : Nat
  m_highPackets : List Packet
  m_lowPackets : List Packet
  m_bytesInHighQueue : Nat
  m_bytesInLowQueue : Nat
  m_dropped : List Packet
deriving DecidableEq, Repr

/-- The constructor `PriorityQueue::PriorityQueue`: empty buckets, zero accumulators; the
mode and the limits are the attribute values the object is configured with. -/
def PriorityQueue.construct (mode : QueueMode) (maxPackets maxBytes : Nat) : PriorityQueue :=
  { m_mode := mode, m_maxPackets := maxPackets, m_maxBytes := maxBytes,
    m_highPackets := [], m_lowPackets := [],
    m_bytesInHighQueue := 0, m_bytesInLowQueue := 0, m_dropped := [] }

/-- Modelled from the spec: `Queue::Drop` belongs to the base class, which is not part of the
source file; it signals one drop event carrying the packet. -/
def Drop (q : PriorityQueue) (p : Packet) : PriorityQueue :=
  { q with m_dropped := q.m_dropped ++ [p] }

/-- `PriorityQueue::DoEnqueue`: the returned flag and the state after the call. -/
def DoEnqueue (q : PriorityQueue) (p0 : Packet) : Option (Bool × PriorityQueue) :=
  match Classify p0 with
  | none => none
  | some (priority, p) =>
    if priority = 1 then
      if q.m_mode = QueueMode.QUEUE_MODE_PACKETS ∧ q.m_highPackets.length ≥ q.m_maxPackets then
        some (false, Drop q p)
      else if q.m_mode = QueueMode.QUEUE_MODE_BYTES
          ∧ (q.m_bytesInHighQueue + GetSize p) % UINT32_MOD ≥ q.m_maxBytes then
        some (false, Drop q p)
      else
        some (true,
          { q with
            m_bytesInHighQueue := (q.m_bytesInHighQueue + GetSize p) % UINT32_MOD,
            m_highPackets := q.m_highPackets ++ [p] })
    else if priority = 0 then
      if q.m_mode = QueueMode.QUEUE_MODE_PACKETS ∧ q.m_lowPackets.length ≥ q.m_maxPackets then
        some (false, Drop q p)
      else if q.m_mode = QueueMode.QUEUE_MODE_BYTES
          ∧ (q.m_bytesInLowQueue + GetSize p) % UINT32_MOD ≥ q.m_maxBytes then
        some (false, Drop q p)
      else
        some (true,
          { q with
            m_bytesInLowQueue := (q.m_bytesInLowQueue + GetSize p) % UINT32_MOD,
            m_lowPackets := q.m_lowPackets ++ [p] })
    else
      some (false, q)

/-- `PriorityQueue::DoDequeue`: the returned packet (`none` for the null pointer) and the
state after the call. -/
def DoDequeue (q : PriorityQueue) : Option Packet × PriorityQueue :=
  match q.m_highPackets with
  | p :: rest =>
    (some p,
      { q with
        m_highPackets := rest,
        m_bytesInHighQueue := (q.m_bytesInHighQueue + UINT32_MOD - GetSize p) % UINT32_MOD })
  | [] =>
    match q.m_lowPackets with
    | p :: rest =>
      (some p,
        { q with
          m_lowPackets := rest,
          m_bytesInLowQueue := (q.m_bytesInLowQueue + UINT32_MOD - GetSize p) % UINT32_MOD })
    | [] => (none, q)

/-- `PriorityQueue::DoPeek`: the packet at the head of the first non-empty bucket. -/
def DoPeek (q : PriorityQueue) : Option Packet :=
  match q.m_highPackets with
  | p :: _ => some p
  | [] =>
    match q.m_lowPackets with
    | p :: _ => some p
    | [] => none

/-! ## Sequences of calls -/

/-- One call on the queue. -/
inductive Call where
  | Enqueue (p : Packet)
  | Dequeue
  | Peek
deriving DecidableEq, Repr

/-- What a call gave back to its caller. -/
inductive Reply where
  | Enqueue (p : Packet) (ok : Bool)
  | Dequeue (r : Option Packet)
  | Peek (r : Option Packet)
deriving DecidableEq, Repr

/-- One call: its reply and the state after it. -/
def step (q : PriorityQueue) : Call → Option (Reply × PriorityQueue)
  | Call.Enqueue p =>
    match DoEnqueue q p with
    | none => none
    | some (ok, q1) => some (Reply.Enqueue p ok, q1)
  | Call.Dequeue => some (Reply.Dequeue (DoDequeue q).1, (DoDequeue q).2)
  | Call.Peek => some (Reply.Peek (DoPeek q), q)

/-- A finite sequence of calls: the replies in order and the final state. -/
def run (q : PriorityQueue) : List Call → Option (List Reply × PriorityQueue)
  | [] => some ([], q)
  | c :: cs =>
    match step q c with
    | none => none
    | some (r, q1) =>
      match run q1 cs with
      | none => none
      | some (rs, q2) => some (r :: rs, q2)

/-- The packets a sequence of calls offers to `Enqueue`. -/
def offered : List Call → List Packet
  | [] => []
  | Call.Enqueue p :: cs => p :: offered cs
  | _ :: cs => offered cs

/-- The packets for which `Enqueue` returned success, in call order. -/
def accepted : List Reply → List Packet
  | [] => []
  | Reply.Enqueue p true :: rs => p :: accepted rs
  | _ :: rs => accepted rs

/-- The packets returned by `Dequeue`, in call order. -/
def returned : List Reply → List Packet
  | [] => []
  | Reply.Dequeue (some p) :: rs => p :: returned rs
  | _ :: rs => returned rs

/-- The priority `Classify` gives a packet, if any. -/
def label (p : Packet) : Option Nat :=
  (Classify p).map Prod.fst

/-- The sum of the sizes of the packets of a bucket. -/
def sumSizes (b : List Packet) : Nat :=
  (b.map GetSize).sum

/-! ## Sample packets -/

/-- A UDP packet to the given destination port with `payload` payload bytes
(its size is `30 + payload`). -/
def udpPacket (uid port payload : Nat) : Packet :=
  { uid := uid,
    headers := [Header.ppp ⟨33⟩, Header.ipv4 ⟨17, 1, 2⟩, Header.udp ⟨49153, port⟩],
    payloadSize := payload }

/-- A TCP packet (protocol 6) with `payload` payload bytes (its size is `42 + payload`). -/
def tcpPacket (uid payload : Nat) : Packet :=
  { uid := uid,
    headers := [Header.ppp ⟨33⟩, Header.ipv4 ⟨6, 1, 2⟩, Header.other 20 0],
    payloadSize := payload }

/-- A packet of another network-layer protocol (ICMP, protocol 1). -/
def icmpPacket (uid payload : Nat) : Packet :=
  { uid := uid,
    headers := [Header.ppp ⟨33⟩, Header.ipv4 ⟨1, 1, 2⟩, Header.other 8 0],
    payloadSize := payload }

/-- The packets with label `l` for which `Enqueue` returned success: the packets admitted
into the bucket of that label, in the order of admission. -/
def acceptedInto (l : Nat) (rs : List Reply) : List Packet :=
  (accepted rs).filter (fun p => decide (label p = some l))

/-- The packets with label `l` returned by `Dequeue`, in the order they were returned. -/
def returnedFrom (l : Nat) (rs : List Reply) : List Packet :=
  (returned rs).filter (fun p => decide (label p = some l))

/-- A High packet of `2^31` bytes. -/
def halfPacket (uid : Nat) : Packet := udpPacket uid 3000 2147483618

/-! ## Sample stores -/

/-- A store in packet mode with one packet in each bucket. -/
def bothBuckets : PriorityQueue :=
  { m_mode := QueueMode.QUEUE_MODE_PACKETS, m_maxPackets := 100, m_maxBytes := 6553500,
    m_highPackets := [udpPacket 1 3000 70], m_lowPackets := [udpPacket 2 2000 70],
    m_bytesInHighQueue := 100, m_bytesInLowQueue := 100, m_dropped := [] }

/-- A store in byte mode (`maxBytes = 1000`) whose High bucket holds 950 bytes. -/
def nearlyFull : PriorityQueue :=
  { m_mode := QueueMode.QUEUE_MODE_BYTES, m_maxPackets := 100, m_maxBytes := 1000,
    m_highPackets := [udpPacket 1 3000 920], m_lowPackets := [],
    m_bytesInHighQueue := 950, m_bytesInLowQueue := 0, m_dropped := [] }

/-- A store in byte mode (`maxBytes = 1000`) whose High bucket holds one 100-byte packet:
the state after one `Enqueue` on the freshly constructed store. -/
def oneHundredBytes : PriorityQueue :=
  { m_mode := QueueMode.QUEUE_MODE_BYTES, m_maxPackets := 100, m_maxBytes := 1000,
    m_highPackets := [udpPacket 1 3000 70], m_lowPackets := [],
    m_bytesInHighQueue := 100, m_bytesInLowQueue := 0, m_dropped := [] }

/-- A High packet of `2^32 - 50` bytes. -/
def hugePacket : Packet := udpPacket 2 3000 4294967216

/-- The store after two `2^31`-byte High packets were enqueued on the freshly constructed
store in packet mode: the High accumulator has wrapped to 0. -/
def twoHalves : PriorityQueue :=
  { m_mode := QueueMode.QUEUE_MODE_PACKETS, m_maxPackets := 100, m_maxBytes := 6553500,
    m_highPackets := [halfPacket 1, halfPacket 2], m_lowPackets := [],
    m_bytesInHighQueue := 0, m_bytesInLowQueue := 0, m_dropped := [] }

/-- A store in packet mode (`maxPackets = 1`) whose Low bucket is full and whose High bucket
is empty. -/
def lowFull : PriorityQueue :=
  { m_mode := QueueMode.QUEUE_MODE_PACKETS, m_maxPackets := 1, m_maxBytes := 6553500,
    m_highPackets := [], m_lowPackets := [udpPacket 2 2000 70],
    m_bytesInHighQueue := 0, m_bytesInLowQueue := 100, m_dropped := [] }

/-- The same configuration as `lowFull` with both buckets empty. -/
def lowEmpty : PriorityQueue :=
  { m_mode := QueueMode.QUEUE_MODE_PACKETS, m_maxPackets := 1, m_maxBytes := 6553500,
    m_highPackets := [], m_lowPackets := [],
    m_bytesInHighQueue := 0, m_bytesInLowQueue := 0, m_dropped := [] }

/-! ## Attribute defaults -/

/-- The initial values of the three attributes `GetTypeId` registers. -/
structure AttributeDefaults where
  Mode : QueueMode
  MaxPackets : Nat
  MaxBytes : Nat
deriving DecidableEq, Repr

/-- `PriorityQueue::GetTypeId`: the defaults given to `AddAttribute` for "Mode",
"MaxPackets" and "MaxBytes". -/
def GetTypeId : AttributeDefaults :=
  { Mode := QueueMode.QUEUE_MODE_PACKETS, MaxPackets := 100, MaxBytes := 100 * 65535 }

/-! ## Basic facts about the classifier -/

/-- The shape of every packet `Classify` accepts, with the label it gets: `Classify` hands
the packet back as it received it. -/
theorem Classify_some (p0 p : Packet) (l : Nat) (h : Classify p0 = some (l, p)) :
    p = p0 ∧ ∃ ppp ip rest, p0.headers = Header.ppp ppp :: Header.ipv4 ip :: rest ∧
      ((ip.protocol = 17 ∧ ∃ udp rest1, rest = Header.udp udp :: rest1 ∧
          l = if udp.destinationPort = 3000 then 1 else 0) ∨
       (ip.protocol = 6 ∧ l = 2) ∨
       (ip.protocol ≠ 17 ∧ ip.protocol ≠ 6 ∧ l = 0)) := by
  obtain ⟨uid, hs, pl⟩ := p0
  rcases hs with _ | ⟨h1, _ | ⟨h2, t⟩⟩
  · simp [Classify, RemovePppHeader] at h
  · cases h1 <;> simp [Classify, RemovePppHeader, RemoveIpv4Header] at h
  · cases h1 <;> cases h2 <;> simp [Classify, RemovePppHeader, RemoveIpv4Header] at h
    rename_i ppp ip
    by_cases h17 : ip.protocol = 17
    · simp only [h17, if_true] at h
      rcases t with _ | ⟨h3, t1⟩
      · simp [ClassifyUdp, RemoveUdpHeader] at h
      · cases h3 <;> simp [ClassifyUdp, RemoveUdpHeader, AddHeader] at h
        rename_i udp
        obtain ⟨hl, hp⟩ := h
        refine ⟨hp.symm, ppp, ip, _, rfl, Or.inl ⟨h17, udp, t1, rfl, ?_⟩⟩
        rw [← hl]
    · by_cases h6 : ip.protocol = 6
      · simp [h17, h6, AddHeader] at h
        exact ⟨h.2.symm, ppp, ip, _, rfl, Or.inr (Or.inl ⟨h6, h.1.symm⟩)⟩
      · simp [h17, h6, AddHeader] at h
        exact ⟨h.2.symm, ppp, ip, _, rfl, Or.inr (Or.inr ⟨h17, h6, h.1.symm⟩)⟩

/-- A UDP packet is labelled by its destination port. -/
theorem Classify_udp (p : Packet) (ppp : PppHeader) (ip : Ipv4Header) (udp : UdpHeader)
    (rest : List Header)
    (hp : p.headers = Header.ppp ppp :: Header.ipv4 ip :: Header.udp udp :: rest)
    (h17 : ip.protocol = 17) :
    Classify p = some (if udp.destinationPort = 3000 then 1 else 0, p) := by
  obtain ⟨uid, hs, pl⟩ := p
  simp only at hp
  subst hp
  by_cases h3000 : udp.destinationPort = 3000 <;>
    simp [Classify, RemovePppHeader, RemoveIpv4Header, ClassifyUdp, RemoveUdpHeader,
      AddHeader, h17, h3000]

/-- A TCP packet is labelled 2. -/
theorem Classify_tcp (p : Packet) (ppp : PppHeader) (ip : Ipv4Header) (rest : List Header)
    (hp : p.headers = Header.ppp ppp :: Header.ipv4 ip :: rest) (h6 : ip.protocol = 6) :
    Classify p = some (2, p) := by
  obtain ⟨uid, hs, pl⟩ := p
  simp only at hp
  subst hp
  simp [Classify, RemovePppHeader, RemoveIpv4Header, AddHeader, h6]

/-- A packet of a protocol other than UDP and TCP is labelled 0. -/
theorem Classify_other (p : Packet) (ppp : PppHeader) (ip : Ipv4Header) (rest : List Header)
    (hp : p.headers = Header.ppp ppp :: Header.ipv4 ip :: rest)
    (h17 : ip.protocol ≠ 17) (h6 : ip.protocol ≠ 6) :
    Classify p = some (0, p) := by
  obtain ⟨uid, hs, pl⟩ := p
  simp only at hp
  subst hp
  simp [Classify, RemovePppHeader, RemoveIpv4Header, AddHeader, h6, h17]

/-- `Classify` hands the packet back unchanged and its label is 0, 1 or 2. -/
theorem Classify_packet (p0 p : Packet) (l : Nat) (h : Classify p0 = some (l, p)) :
    p = p0 ∧ (l = 0 ∨ l = 1 ∨ l = 2) := by
  obtain ⟨hp, ppp, ip, rest, _, hc⟩ := Classify_some p0 p l h
  refine ⟨hp, ?_⟩
  rcases hc with ⟨_, udp, _, _, hl⟩ | ⟨_, hl⟩ | ⟨_, _, hl⟩
  · by_cases h3000 : udp.destinationPort = 3000 <;> simp [h3000] at hl <;> omega
  · omega
  · omega

/-- The label of a packet determines what `Classify` returns. -/
theorem label_some (p : Packet) (l : Nat) (h : label p = some l) :
    Classify p = some (l, p) := by
  unfold label at h
  cases hc : Classify p with
  | none => simp [hc] at h
  | some r =>
    obtain ⟨l1, p1⟩ := r
    simp [hc] at h
    subst h
    rw [(Classify_packet p p1 l1 hc).1]

/-! ## Strict-priority selection -/

/-- C1: if the High bucket is non-empty, `DoDequeue` and `DoPeek` both return its head,
whatever the Low bucket holds; if High is empty and Low is not, they return the head of Low;
if both are empty they return the null result. -/
theorem strict_priority_selection (q : PriorityQueue) :
    (∀ p rest, q.m_highPackets = p :: rest →
        (DoDequeue q).1 = some p ∧ DoPeek q = some p) ∧
    (∀ p rest, q.m_highPackets = [] → q.m_lowPackets = p :: rest →
        (DoDequeue q).1 = some p ∧ DoPeek q = some p) ∧
    (q.m_highPackets = [] → q.m_lowPackets = [] →
        (DoDequeue q).1 = none ∧ DoPeek q = none) := by
  refine ⟨?_, ?_, ?_⟩
  · intro p rest h
    simp [DoDequeue, DoPeek, h]
  · intro p rest hh hl
    simp [DoDequeue, DoPeek, hh, hl]
  · intro hh hl
    simp [DoDequeue, DoPeek, hh, hl]

/-- With a packet in each bucket, the High packet is the one selected. -/
theorem strict_priority_selection_witness :
    (DoDequeue bothBuckets).1 = some (udpPacket 1 3000 70) ∧
      DoPeek bothBuckets = some (udpPacket 1 3000 70) :=
  (strict_priority_selection bothBuckets).1 (udpPacket 1 3000 70) [] rfl

/-! ## Admission control -/

/-- C3: in packet mode, `DoEnqueue` of a packet labelled High (Low) succeeds exactly when
the High (Low) bucket holds fewer than `m_maxPackets` packets, whatever the packet's size,
the byte accumulators and `m_maxBytes`; with `m_maxPackets = 2` and empty buckets, two
enqueues into High succeed, the third fails and the bucket still holds 2 packets. -/
theorem packet_count_admission :
    (∀ (q : PriorityQueue) (p : Packet), q.m_mode = QueueMode.QUEUE_MODE_PACKETS →
      (label p = some 1 → ∃ q1,
        DoEnqueue q p = some (decide (q.m_highPackets.length < q.m_maxPackets), q1)) ∧
      (label p = some 0 → ∃ q1,
        DoEnqueue q p = some (decide (q.m_lowPackets.length < q.m_maxPackets), q1))) ∧
    (run (PriorityQueue.construct QueueMode.QUEUE_MODE_PACKETS 2 6553500)
        [Call.Enqueue (udpPacket 1 3000 70), Call.Enqueue (udpPacket 2 3000 70),
          Call.Enqueue (udpPacket 3 3000 70)]).map
        (fun r => (r.1, r.2.m_highPackets.length)) =
      some ([Reply.Enqueue (udpPacket 1 3000 70) true, Reply.Enqueue (udpPacket 2 3000 70) true,
        Reply.Enqueue (udpPacket 3 3000 70) false], 2) := by
  refine ⟨?_, by decide⟩
  intro q p hm
  constructor
  · intro hl
    have hc := label_some p 1 hl
    by_cases hlen : q.m_highPackets.length < q.m_maxPackets
    · exact ⟨{ q with
          m_bytesInHighQueue := (q.m_bytesInHighQueue + GetSize p) % UINT32_MOD,
          m_highPackets := q.m_highPackets ++ [p] },
        by simp [DoEnqueue, hc, hm, hlen, Nat.not_le.mpr hlen]⟩
    · exact ⟨Drop q p, by simp [DoEnqueue, hc, hm, hlen, Nat.le_of_not_lt hlen]⟩
  · intro hl
    have hc := label_some p 0 hl
    by_cases hlen : q.m_lowPackets.length < q.m_maxPackets
    · exact ⟨{ q with
          m_bytesInLowQueue := (q.m_bytesInLowQueue + GetSize p) % UINT32_MOD,
          m_lowPackets := q.m_lowPackets ++ [p] },
        by simp [DoEnqueue, hc, hm, hlen, Nat.not_le.mpr hlen]⟩
    · exact ⟨Drop q p, by simp [DoEnqueue, hc, hm, hlen, Nat.le_of_not_lt hlen]⟩

/-- In packet mode a Low packet enters a store whose Low bucket holds one packet. -/
theorem packet_count_admission_witness :
    ∃ q1, DoEnqueue bothBuckets (udpPacket 5 2000 7) =
      some (decide (bothBuckets.m_lowPackets.length < bothBuckets.m_maxPackets), q1) :=
  (packet_count_admission.1 bothBuckets (udpPacket 5 2000 7) rfl).2 (by decide)

/-- The case analysis of `DoEnqueue` on a packet labelled High. -/
theorem DoEnqueue_high (q : PriorityQueue) (p : Packet) (hl : label p = some 1) :
    DoEnqueue q p =
      if (q.m_mode = QueueMode.QUEUE_MODE_PACKETS ∧ q.m_maxPackets ≤ q.m_highPackets.length) ∨
          (q.m_mode = QueueMode.QUEUE_MODE_BYTES ∧
            q.m_maxBytes ≤ (q.m_bytesInHighQueue + GetSize p) % UINT32_MOD) then
        some (false, Drop q p)
      else
        some (true,
          { q with
            m_bytesInHighQueue := (q.m_bytesInHighQueue + GetSize p) % UINT32_MOD,
            m_highPackets := q.m_highPackets ++ [p] }) := by
  have hc := label_some p 1 hl
  cases hm : q.m_mode <;>
    by_cases h1 : q.m_maxPackets ≤ q.m_highPackets.length <;>
    by_cases h2 : q.m_maxBytes ≤ (q.m_bytesInHighQueue + GetSize p) % UINT32_MOD <;>
    simp [DoEnqueue, hc, hm, h1, h2]

/-- The case analysis of `DoEnqueue` on a packet labelled Low. -/
theorem DoEnqueue_low (q : PriorityQueue) (p : Packet) (hl : label p = some 0) :
    DoEnqueue q p =
      if (q.m_mode = QueueMode.QUEUE_MODE_PACKETS ∧ q.m_maxPackets ≤ q.m_lowPackets.length) ∨
          (q.m_mode = QueueMode.QUEUE_MODE_BYTES ∧
            q.m_maxBytes ≤ (q.m_bytesInLowQueue + GetSize p) % UINT32_MOD) then
        some (false, Drop q p)
      else
        some (true,
          { q with
            m_bytesInLowQueue := (q.m_bytesInLowQueue + GetSize p) % UINT32_MOD,
            m_lowPackets := q.m_lowPackets ++ [p] }) := by
  have hc := label_some p 0 hl
  cases hm : q.m_mode <;>
    by_cases h1 : q.m_maxPackets ≤ q.m_lowPackets.length <;>
    by_cases h2 : q.m_maxBytes ≤ (q.m_bytesInLowQueue + GetSize p) % UINT32_MOD <;>
    simp [DoEnqueue, hc, hm, h1, h2]

/-- `DoEnqueue` on a packet labelled 2 returns `false` and leaves the state as it is. -/
theorem DoEnqueue_other (q : PriorityQueue) (p : Packet) (hl : label p = some 2) :
    DoEnqueue q p = some (false, q) := by
  have hc := label_some p 2 hl
  simp [DoEnqueue, hc]

/-- Counterexample to C4 as stated: the High bucket holds 100 bytes (one accepted packet,
`maxBytes = 1000`) and a High packet of `2^32 - 50` bytes arrives; the mathematical sum
`2^32 + 50` is not below `maxBytes`, yet `DoEnqueue` succeeds, because the `uint32_t` sum
wraps to 50. -/
theorem byte_admission_exact_sum_fails :
    run (PriorityQueue.construct QueueMode.QUEUE_MODE_BYTES 100 1000)
        [Call.Enqueue (udpPacket 1 3000 70)] =
      some ([Reply.Enqueue (udpPacket 1 3000 70) true], oneHundredBytes) ∧
    label hugePacket = some 1 ∧
    GetSize hugePacket = 4294967246 ∧
    (DoEnqueue oneHundredBytes hugePacket).map Prod.fst = some true ∧
    ¬ (oneHundredBytes.m_bytesInHighQueue + GetSize hugePacket < oneHundredBytes.m_maxBytes) := by
  decide

/-- C4 (amended): in byte mode, `DoEnqueue` of a packet labelled High (Low) succeeds exactly
when the `uint32_t` sum `(bytes + size) mod 2^32` of the bucket's accumulator and the packet's
size is strictly below `m_maxBytes`; whenever `bytes + size < 2^32` that is the mathematical
sum, so `bytes + size = m_maxBytes` is rejected; with `maxBytes = 1000` a bucket holding 950
bytes rejects a 51-byte packet and accepts a 49-byte packet. -/
theorem byte_size_admission :
    (∀ (q : PriorityQueue) (p : Packet), q.m_mode = QueueMode.QUEUE_MODE_BYTES →
      (label p = some 1 → ∃ q1, DoEnqueue q p =
        some (decide ((q.m_bytesInHighQueue + GetSize p) % UINT32_MOD < q.m_maxBytes), q1)) ∧
      (label p = some 0 → ∃ q1, DoEnqueue q p =
        some (decide ((q.m_bytesInLowQueue + GetSize p) % UINT32_MOD < q.m_maxBytes), q1))) ∧
    (∀ (q : PriorityQueue) (p : Packet), q.m_mode = QueueMode.QUEUE_MODE_BYTES →
      (label p = some 1 → q.m_bytesInHighQueue + GetSize p < UINT32_MOD → ∃ q1,
        DoEnqueue q p =
          some (decide (q.m_bytesInHighQueue + GetSize p < q.m_maxBytes), q1)) ∧
      (label p = some 0 → q.m_bytesInLowQueue + GetSize p < UINT32_MOD → ∃ q1,
        DoEnqueue q p =
          some (decide (q.m_bytesInLowQueue + GetSize p < q.m_maxBytes), q1))) ∧
    (GetSize (udpPacket 7 3000 21) = 51 ∧
      (DoEnqueue nearlyFull (udpPacket 7 3000 21)).map Prod.fst = some false ∧
      GetSize (udpPacket 8 3000 19) = 49 ∧
      (DoEnqueue nearlyFull (udpPacket 8 3000 19)).map Prod.fst = some true) := by
  have main : ∀ (q : PriorityQueue) (p : Packet), q.m_mode = QueueMode.QUEUE_MODE_BYTES →
      (label p = some 1 → ∃ q1, DoEnqueue q p =
        some (decide ((q.m_bytesInHighQueue + GetSize p) % UINT32_MOD < q.m_maxBytes), q1)) ∧
      (label p = some 0 → ∃ q1, DoEnqueue q p =
        some (decide ((q.m_bytesInLowQueue + GetSize p) % UINT32_MOD < q.m_maxBytes), q1)) := by
    intro q p hm
    constructor
    · intro hl
      rw [DoEnqueue_high q p hl]
      by_cases h : q.m_maxBytes ≤ (q.m_bytesInHighQueue + GetSize p) % UINT32_MOD
      · exact ⟨Drop q p, by simp [hm, h]⟩
      · exact ⟨_, by simp [hm, h, Nat.lt_of_not_le h]; rfl⟩
    · intro hl
      rw [DoEnqueue_low q p hl]
      by_cases h : q.m_maxBytes ≤ (q.m_bytesInLowQueue + GetSize p) % UINT32_MOD
      · exact ⟨Drop q p, by simp [hm, h]⟩
      · exact ⟨_, by simp [hm, h, Nat.lt_of_not_le h]; rfl⟩
  refine ⟨main, ?_, by decide⟩
  intro q p hm
  constructor
  · intro hl hlt
    have h := (main q p hm).1 hl
    rwa [Nat.mod_eq_of_lt hlt] at h
  · intro hl hlt
    have h := (main q p hm).2 hl
    rwa [Nat.mod_eq_of_lt hlt] at h

/-- In byte mode the nearly full High bucket (950 of 1000 bytes) rejects a 51-byte packet. -/
theorem byte_size_admission_witness :
    ∃ q1, DoEnqueue nearlyFull (udpPacket 7 3000 21) =
      some (decide ((nearlyFull.m_bytesInHighQueue + GetSize (udpPacket 7 3000 21)) % UINT32_MOD
        < nearlyFull.m_maxBytes), q1) :=
  (byte_size_admission.1 nearlyFull (udpPacket 7 3000 21) rfl).1 (by decide)

/-! ## Classification -/

/-- C5: a UDP packet (protocol 17) is labelled High (1) when its destination port is 3000 and
Low (0) for every other port; a packet whose protocol is neither 17 nor 6 is labelled Low (0);
`Classify` returns High exactly for protocol 17 with destination port 3000. -/
theorem classify_non_tcp (p : Packet) :
    (∀ ppp ip udp rest,
        p.headers = Header.ppp ppp :: Header.ipv4 ip :: Header.udp udp :: rest →
        ip.protocol = 17 →
        Classify p = some (if udp.destinationPort = 3000 then 1 else 0, p)) ∧
    (∀ ppp ip rest, p.headers = Header.ppp ppp :: Header.ipv4 ip :: rest →
        ip.protocol ≠ 17 → ip.protocol ≠ 6 → Classify p = some (0, p)) ∧
    ((∃ p1, Classify p = some (1, p1)) ↔
      ∃ ppp ip udp rest,
        p.headers = Header.ppp ppp :: Header.ipv4 ip :: Header.udp udp :: rest ∧
        ip.protocol = 17 ∧ udp.destinationPort = 3000) := by
  refine ⟨?_, ?_, ?_, ?_⟩
  · intro ppp ip udp rest hp h17
    exact Classify_udp p ppp ip udp rest hp h17
  · intro ppp ip rest hp h17 h6
    exact Classify_other p ppp ip rest hp h17 h6
  · rintro ⟨p1, h⟩
    obtain ⟨_, ppp, ip, rest, hp, hc⟩ := Classify_some p p1 1 h
    rcases hc with ⟨h17, udp, rest1, hr, hl⟩ | ⟨_, hl⟩ | ⟨_, _, hl⟩
    · refine ⟨ppp, ip, udp, rest1, by rw [hp, hr], h17, ?_⟩
      by_contra hne
      simp [hne] at hl
    · omega
    · omega
  · rintro ⟨ppp, ip, udp, rest, hp, h17, h3000⟩
    refine ⟨p, ?_⟩
    have h := Classify_udp p ppp ip udp rest hp h17
    simpa [h3000] using h

/-- UDP to port 3000 is High, UDP to ports 2000 and 9999 is Low, ICMP is Low. -/
theorem classify_non_tcp_witness :
    Classify (udpPacket 1 3000 70) = some (1, udpPacket 1 3000 70) ∧
    Classify (udpPacket 1 2000 70) = some (0, udpPacket 1 2000 70) ∧
    Classify (udpPacket 1 9999 70) = some (0, udpPacket 1 9999 70) ∧
    Classify (icmpPacket 1 70) = some (0, icmpPacket 1 70) :=
  ⟨(classify_non_tcp (udpPacket 1 3000 70)).1 ⟨33⟩ ⟨17, 1, 2⟩ ⟨49153, 3000⟩ [] rfl rfl,
   (classify_non_tcp (udpPacket 1 2000 70)).1 ⟨33⟩ ⟨17, 1, 2⟩ ⟨49153, 2000⟩ [] rfl rfl,
   (classify_non_tcp (udpPacket 1 9999 70)).1 ⟨33⟩ ⟨17, 1, 2⟩ ⟨49153, 9999⟩ [] rfl rfl,
   (classify_non_tcp (icmpPacket 1 70)).2.1 ⟨33⟩ ⟨1, 1, 2⟩ [Header.other 8 0] rfl
     (by decide) (by decide)⟩

/-- Every packet `DoEnqueue` handles has a label, which is 1, 0 or 2. -/
theorem DoEnqueue_label (q : PriorityQueue) (p : Packet) (r : Bool × PriorityQueue)
    (h : DoEnqueue q p = some r) :
    label p = some 1 ∨ label p = some 0 ∨ label p = some 2 := by
  cases hc : Classify p with
  | none => simp [DoEnqueue, hc] at h
  | some c =>
    obtain ⟨l, p1⟩ := c
    have hl : label p = some l := by simp [label, hc]
    rcases (Classify_packet p p1 l hc).2 with h0 | h1 | h2
    · right; left; rw [hl, h0]
    · left; rw [hl, h1]
    · right; right; rw [hl, h2]

/-- `DoEnqueue` returns a result exactly for the packets `Classify` accepts. -/
theorem DoEnqueue_isSome (q : PriorityQueue) (p : Packet) (h : (Classify p).isSome = true) :
    ∃ ok q1, DoEnqueue q p = some (ok, q1) := by
  cases hc : Classify p with
  | none => simp [hc] at h
  | some c =>
    obtain ⟨l, p1⟩ := c
    have hl : label p = some l := by simp [label, hc]
    rcases (Classify_packet p p1 l hc).2 with h0 | h1 | h2
    · subst h0
      rw [DoEnqueue_low q p hl]
      split
      · exact ⟨_, _, rfl⟩
      · exact ⟨_, _, rfl⟩
    · subst h1
      rw [DoEnqueue_high q p hl]
      split
      · exact ⟨_, _, rfl⟩
      · exact ⟨_, _, rfl⟩
    · subst h2
      exact ⟨_, _, DoEnqueue_other q p hl⟩

/-- Counterexample to C6 as stated: a TCP packet offered to the freshly constructed store
(Low bucket empty, so the Low admission check passes) is labelled 2 and `DoEnqueue` returns
`false`; the packet is not appended to the Low bucket. -/
theorem tcp_not_routed_to_low :
    label (tcpPacket 1 58) = some 2 ∧
    (PriorityQueue.construct QueueMode.QUEUE_MODE_PACKETS 100 6553500).m_lowPackets.length
      < 100 ∧
    DoEnqueue (PriorityQueue.construct QueueMode.QUEUE_MODE_PACKETS 100 6553500)
        (tcpPacket 1 58) =
      some (false, PriorityQueue.construct QueueMode.QUEUE_MODE_PACKETS 100 6553500) := by
  decide

/-- C6 (amended): a TCP packet (protocol 6) is labelled 2 and `DoEnqueue` returns failure
for it, leaving both buckets, both accumulators, the mode and the limits as they were; the
labels are 1, 0 and 2, and the two that reach admission control are High (UDP to port 3000)
and Low (UDP to any other port, and every protocol other than 17 and 6). -/
theorem tcp_refused (q : PriorityQueue) (p : Packet) :
    (∀ ppp ip rest, p.headers = Header.ppp ppp :: Header.ipv4 ip :: rest → ip.protocol = 6 →
      label p = some 2 ∧
      ∃ q1, DoEnqueue q p = some (false, q1) ∧
        q1.m_highPackets = q.m_highPackets ∧ q1.m_lowPackets = q.m_lowPackets ∧
        q1.m_bytesInHighQueue = q.m_bytesInHighQueue ∧
        q1.m_bytesInLowQueue = q.m_bytesInLowQueue ∧
        q1.m_mode = q.m_mode ∧ q1.m_maxPackets = q.m_maxPackets ∧
        q1.m_maxBytes = q.m_maxBytes) ∧
    (∀ l, label p = some l → l = 1 ∨ l = 0 ∨ l = 2) ∧
    (label p = some 1 ↔
      ∃ ppp ip udp rest,
        p.headers = Header.ppp ppp :: Header.ipv4 ip :: Header.udp udp :: rest ∧
        ip.protocol = 17 ∧ udp.destinationPort = 3000) ∧
    (label p = some 0 ↔
      ∃ ppp ip rest, p.headers = Header.ppp ppp :: Header.ipv4 ip :: rest ∧
        ((ip.protocol = 17 ∧ ∃ udp rest1, rest = Header.udp udp :: rest1 ∧
            udp.destinationPort ≠ 3000) ∨
         (ip.protocol ≠ 17 ∧ ip.protocol ≠ 6))) := by
  refine ⟨?_, ?_, ⟨?_, ?_⟩, ⟨?_, ?_⟩⟩
  · intro ppp ip rest hp h6
    have hc := Classify_tcp p ppp ip rest hp h6
    have hl : label p = some 2 := by simp [label, hc]
    exact ⟨hl, q, DoEnqueue_other q p hl, rfl, rfl, rfl, rfl, rfl, rfl, rfl⟩
  · intro l hl
    have h := (Classify_packet p p l (label_some p l hl)).2
    omega
  · intro hl
    obtain ⟨_, ppp, ip, rest, hp, hc⟩ := Classify_some p p 1 (label_some p 1 hl)
    rcases hc with ⟨h17, udp, rest1, hr, h1⟩ | ⟨_, h1⟩ | ⟨_, _, h1⟩
    · refine ⟨ppp, ip, udp, rest1, by rw [hp, hr], h17, ?_⟩
      by_contra hne
      simp [hne] at h1
    · omega
    · omega
  · rintro ⟨ppp, ip, udp, rest, hp, h17, h3000⟩
    have h := Classify_udp p ppp ip udp rest hp h17
    simp [label, h, h3000]
  · intro hl
    obtain ⟨_, ppp, ip, rest, hp, hc⟩ := Classify_some p p 0 (label_some p 0 hl)
    refine ⟨ppp, ip, rest, hp, ?_⟩
    rcases hc with ⟨h17, udp, rest1, hr, h1⟩ | ⟨_, h1⟩ | ⟨h17, h6, _⟩
    · refine Or.inl ⟨h17, udp, rest1, hr, ?_⟩
      intro h3000
      simp [h3000] at h1
    · omega
    · exact Or.inr ⟨h17, h6⟩
  · rintro ⟨ppp, ip, rest, hp, ⟨h17, udp, rest1, hr, hne⟩ | ⟨h17, h6⟩⟩
    · have h := Classify_udp p ppp ip udp rest1 (by rw [hp, hr]) h17
      simp [label, h, hne]
    · have h := Classify_other p ppp ip rest hp h17 h6
      simp [label, h]

/-- A TCP packet is refused by a store that has room in both buckets. -/
theorem tcp_refused_witness :
    label (tcpPacket 1 58) = some 2 ∧
    ∃ q1, DoEnqueue bothBuckets (tcpPacket 1 58) = some (false, q1) ∧
      q1.m_highPackets = bothBuckets.m_highPackets ∧
      q1.m_lowPackets = bothBuckets.m_lowPackets ∧
      q1.m_bytesInHighQueue = bothBuckets.m_bytesInHighQueue ∧
      q1.m_bytesInLowQueue = bothBuckets.m_bytesInLowQueue ∧
      q1.m_mode = bothBuckets.m_mode ∧ q1.m_maxPackets = bothBuckets.m_maxPackets ∧
      q1.m_maxBytes = bothBuckets.m_maxBytes :=
  (tcp_refused bothBuckets (tcpPacket 1 58)).1 ⟨33⟩ ⟨6, 1, 2⟩ [Header.other 20 0] rfl rfl

/-- Every way `DoEnqueue` can return: rejected by the High check, accepted into High,
rejected by the Low check, accepted into Low, or refused because the label is 2. -/
theorem DoEnqueue_inv (q : PriorityQueue) (p : Packet) (ok : Bool) (q1 : PriorityQueue)
    (h : DoEnqueue q p = some (ok, q1)) :
    (label p = some 1 ∧
      ((((q.m_mode = QueueMode.QUEUE_MODE_PACKETS ∧ q.m_maxPackets ≤ q.m_highPackets.length) ∨
          (q.m_mode = QueueMode.QUEUE_MODE_BYTES ∧
            q.m_maxBytes ≤ (q.m_bytesInHighQueue + GetSize p) % UINT32_MOD)) ∧
          ok = false ∧ q1 = Drop q p) ∨
       (¬ ((q.m_mode = QueueMode.QUEUE_MODE_PACKETS ∧ q.m_maxPackets ≤ q.m_highPackets.length) ∨
          (q.m_mode = QueueMode.QUEUE_MODE_BYTES ∧
            q.m_maxBytes ≤ (q.m_bytesInHighQueue + GetSize p) % UINT32_MOD)) ∧
          ok = true ∧
          q1 = { q with
            m_bytesInHighQueue := (q.m_bytesInHighQueue + GetSize p) % UINT32_MOD,
            m_highPackets := q.m_highPackets ++ [p] }))) ∨
    (label p = some 0 ∧
      ((((q.m_mode = QueueMode.QUEUE_MODE_PACKETS ∧ q.m_maxPackets ≤ q.m_lowPackets.length) ∨
          (q.m_mode = QueueMode.QUEUE_MODE_BYTES ∧
            q.m_maxBytes ≤ (q.m_bytesInLowQueue + GetSize p) % UINT32_MOD)) ∧
          ok = false ∧ q1 = Drop q p) ∨
       (¬ ((q.m_mode = QueueMode.QUEUE_MODE_PACKETS ∧ q.m_maxPackets ≤ q.m_lowPackets.length) ∨
          (q.m_mode = QueueMode.QUEUE_MODE_BYTES ∧
            q.m_maxBytes ≤ (q.m_bytesInLowQueue + GetSize p) % UINT32_MOD)) ∧
          ok = true ∧
          q1 = { q with
            m_bytesInLowQueue := (q.m_bytesInLowQueue + GetSize p) % UINT32_MOD,
            m_lowPackets := q.m_lowPackets ++ [p] }))) ∨
    (label p = some 2 ∧ ok = false ∧ q1 = q) := by
  rcases DoEnqueue_label q p (ok, q1) h with hl | hl | hl
  · left
    refine ⟨hl, ?_⟩
    rw [DoEnqueue_high q p hl] at h
    split at h
    · rename_i hr
      simp only [Option.some.injEq, Prod.mk.injEq] at h
      exact Or.inl ⟨hr, h.1.symm, h.2.symm⟩
    · rename_i hr
      simp only [Option.some.injEq, Prod.mk.injEq] at h
      exact Or.inr ⟨hr, h.1.symm, h.2.symm⟩
  · right; left
    refine ⟨hl, ?_⟩
    rw [DoEnqueue_low q p hl] at h
    split at h
    · rename_i hr
      simp only [Option.some.injEq, Prod.mk.injEq] at h
      exact Or.inl ⟨hr, h.1.symm, h.2.symm⟩
    · rename_i hr
      simp only [Option.some.injEq, Prod.mk.injEq] at h
      exact Or.inr ⟨hr, h.1.symm, h.2.symm⟩
  · right; right
    rw [DoEnqueue_other q p hl] at h
    simp only [Option.some.injEq, Prod.mk.injEq] at h
    exact ⟨hl, h.1.symm, h.2.symm⟩

/-! ## Drop notification, rejection and acceptance -/

/-- Counterexample to C8 as stated: a TCP packet offered to the freshly constructed store
(both buckets empty, limits 100 packets and 6553500 bytes) makes `DoEnqueue` return `false`
although no admission check rejects it, and no drop event is emitted. -/
theorem tcp_failure_without_drop :
    label (tcpPacket 1 58) = some 2 ∧
    (DoEnqueue (PriorityQueue.construct QueueMode.QUEUE_MODE_PACKETS 100 6553500)
        (tcpPacket 1 58)).map (fun r => (r.1, r.2.m_dropped)) = some (false, []) ∧
    (DoEnqueue (PriorityQueue.construct QueueMode.QUEUE_MODE_BYTES 100 6553500)
        (tcpPacket 1 58)).map (fun r => (r.1, r.2.m_dropped)) = some (false, []) := by
  decide

/-- C8 (amended): whenever `DoEnqueue` returns success it has emitted no drop event; for a
packet labelled High (Low), `DoEnqueue` returns failure exactly when the High (Low) bucket's
admission check rejects, and then it has emitted exactly one drop event, carrying that same
packet; `DoEnqueue` also returns failure for every packet labelled 2, which is not an
admission rejection. -/
theorem drop_notification (q : PriorityQueue) (p : Packet) (ok : Bool) (q1 : PriorityQueue)
    (h : DoEnqueue q p = some (ok, q1)) :
    (ok = true → q1.m_dropped = q.m_dropped) ∧
    (label p = some 1 →
      (ok = false ↔
        ((q.m_mode = QueueMode.QUEUE_MODE_PACKETS ∧ q.m_maxPackets ≤ q.m_highPackets.length) ∨
          (q.m_mode = QueueMode.QUEUE_MODE_BYTES ∧
            q.m_maxBytes ≤ (q.m_bytesInHighQueue + GetSize p) % UINT32_MOD))) ∧
      (ok = false → q1.m_dropped = q.m_dropped ++ [p])) ∧
    (label p = some 0 →
      (ok = false ↔
        ((q.m_mode = QueueMode.QUEUE_MODE_PACKETS ∧ q.m_maxPackets ≤ q.m_lowPackets.length) ∨
          (q.m_mode = QueueMode.QUEUE_MODE_BYTES ∧
            q.m_maxBytes ≤ (q.m_bytesInLowQueue + GetSize p) % UINT32_MOD))) ∧
      (ok = false → q1.m_dropped = q.m_dropped ++ [p])) ∧
    (label p = some 2 → ok = false) := by
  rcases DoEnqueue_inv q p ok q1 h with
    ⟨hl, ⟨hr, hok, hq⟩ | ⟨hr, hok, hq⟩⟩ | ⟨hl, ⟨hr, hok, hq⟩ | ⟨hr, hok, hq⟩⟩ | ⟨hl, hok, hq⟩
  all_goals subst hok hq
  all_goals simp_all [Drop]

/-- A High packet offered to a full High bucket is dropped, once. -/
theorem drop_notification_witness :
    (Drop nearlyFull (udpPacket 7 3000 21)).m_dropped =
      nearlyFull.m_dropped ++ [udpPacket 7 3000 21] :=
  ((drop_notification nearlyFull (udpPacket 7 3000 21) false
    (Drop nearlyFull (udpPacket 7 3000 21)) (by decide)).2.1 (by decide)).2 rfl

/-- C9: when `DoEnqueue` returns failure, both buckets' packet sequences, both byte
accumulators, the mode and the limits are what they were before the call, and the rejected
packet has not entered either bucket. -/
theorem rejection_atomic (q : PriorityQueue) (p : Packet) (q1 : PriorityQueue)
    (h : DoEnqueue q p = some (false, q1)) :
    q1.m_highPackets = q.m_highPackets ∧ q1.m_lowPackets = q.m_lowPackets ∧
    q1.m_bytesInHighQueue = q.m_bytesInHighQueue ∧
    q1.m_bytesInLowQueue = q.m_bytesInLowQueue ∧
    q1.m_mode = q.m_mode ∧ q1.m_maxPackets = q.m_maxPackets ∧ q1.m_maxBytes = q.m_maxBytes ∧
    (p ∉ q.m_highPackets → p ∉ q1.m_highPackets) ∧
    (p ∉ q.m_lowPackets → p ∉ q1.m_lowPackets) := by
  rcases DoEnqueue_inv q p false q1 h with
    ⟨_, ⟨_, _, hq⟩ | ⟨_, hok, _⟩⟩ | ⟨_, ⟨_, _, hq⟩ | ⟨_, hok, _⟩⟩ | ⟨_, _, hq⟩
  · subst hq; simp [Drop]
  · simp at hok
  · subst hq; simp [Drop]
  · simp at hok
  · subst hq; simp

/-- The rejection of a 51-byte packet by the nearly full High bucket changes nothing. -/
theorem rejection_atomic_witness :
    (Drop nearlyFull (udpPacket 7 3000 21)).m_highPackets = nearlyFull.m_highPackets ∧
    (Drop nearlyFull (udpPacket 7 3000 21)).m_lowPackets = nearlyFull.m_lowPackets ∧
    (Drop nearlyFull (udpPacket 7 3000 21)).m_bytesInHighQueue
      = nearlyFull.m_bytesInHighQueue ∧
    (Drop nearlyFull (udpPacket 7 3000 21)).m_bytesInLowQueue = nearlyFull.m_bytesInLowQueue ∧
    (Drop nearlyFull (udpPacket 7 3000 21)).m_mode = nearlyFull.m_mode ∧
    (Drop nearlyFull (udpPacket 7 3000 21)).m_maxPackets = nearlyFull.m_maxPackets ∧
    (Drop nearlyFull (udpPacket 7 3000 21)).m_maxBytes = nearlyFull.m_maxBytes ∧
    (udpPacket 7 3000 21 ∉ nearlyFull.m_highPackets →
      udpPacket 7 3000 21 ∉ (Drop nearlyFull (udpPacket 7 3000 21)).m_highPackets) ∧
    (udpPacket 7 3000 21 ∉ nearlyFull.m_lowPackets →
      udpPacket 7 3000 21 ∉ (Drop nearlyFull (udpPacket 7 3000 21)).m_lowPackets) :=
  rejection_atomic nearlyFull (udpPacket 7 3000 21) (Drop nearlyFull (udpPacket 7 3000 21))
    (by decide)

/-- Counterexample to C10 as stated: the High bucket's accumulator is 100 and a High packet
of `2^32 - 50` bytes is accepted; the accumulator becomes 50, it has not grown by the
packet's size. -/
theorem accumulator_growth_wraps :
    GetSize hugePacket = 4294967246 ∧
    (DoEnqueue oneHundredBytes hugePacket).map (fun r => (r.1, r.2.m_bytesInHighQueue)) =
      some (true, 50) ∧
    50 ≠ oneHundredBytes.m_bytesInHighQueue + GetSize hugePacket := by
  decide

/-- C10 (amended): when `DoEnqueue` returns success, the packet is labelled High or Low and
has been appended at the tail of that label's bucket, the bucket's earlier packets are as
before, the bucket's accumulator is the `uint32_t` sum `(bytes + size) mod 2^32` (it has grown
by exactly the packet's size whenever `bytes + size < 2^32`), and the other bucket's packets
and accumulator are unchanged. -/
theorem acceptance_effect (q : PriorityQueue) (p : Packet) (q1 : PriorityQueue)
    (h : DoEnqueue q p = some (true, q1)) :
    (label p = some 1 ∧ q1.m_highPackets = q.m_highPackets ++ [p] ∧
      q1.m_bytesInHighQueue = (q.m_bytesInHighQueue + GetSize p) % UINT32_MOD ∧
      (q.m_bytesInHighQueue + GetSize p < UINT32_MOD →
        q1.m_bytesInHighQueue = q.m_bytesInHighQueue + GetSize p) ∧
      q1.m_lowPackets = q.m_lowPackets ∧ q1.m_bytesInLowQueue = q.m_bytesInLowQueue) ∨
    (label p = some 0 ∧ q1.m_lowPackets = q.m_lowPackets ++ [p] ∧
      q1.m_bytesInLowQueue = (q.m_bytesInLowQueue + GetSize p) % UINT32_MOD ∧
      (q.m_bytesInLowQueue + GetSize p < UINT32_MOD →
        q1.m_bytesInLowQueue = q.m_bytesInLowQueue + GetSize p) ∧
      q1.m_highPackets = q.m_highPackets ∧ q1.m_bytesInHighQueue = q.m_bytesInHighQueue) := by
  rcases DoEnqueue_inv q p true q1 h with
    ⟨hl, ⟨_, hok, _⟩ | ⟨_, _, hq⟩⟩ | ⟨hl, ⟨_, hok, _⟩ | ⟨_, _, hq⟩⟩ | ⟨_, hok, _⟩
  · simp at hok
  · subst hq
    exact Or.inl ⟨hl, rfl, rfl, fun hlt => Nat.mod_eq_of_lt hlt, rfl, rfl⟩
  · simp at hok
  · subst hq
    exact Or.inr ⟨hl, rfl, rfl, fun hlt => Nat.mod_eq_of_lt hlt, rfl, rfl⟩
  · simp at hok

/-- A 49-byte High packet enters the High bucket that holds 950 of 1000 bytes. -/
theorem acceptance_effect_witness :
    (label (udpPacket 8 3000 19) = some 1 ∧
      [udpPacket 1 3000 920, udpPacket 8 3000 19]
        = nearlyFull.m_highPackets ++ [udpPacket 8 3000 19] ∧
      999 = (nearlyFull.m_bytesInHighQueue + GetSize (udpPacket 8 3000 19)) % UINT32_MOD ∧
      (nearlyFull.m_bytesInHighQueue + GetSize (udpPacket 8 3000 19) < UINT32_MOD →
        999 = nearlyFull.m_bytesInHighQueue + GetSize (udpPacket 8 3000 19)) ∧
      [] = nearlyFull.m_lowPackets ∧ 0 = nearlyFull.m_bytesInLowQueue) ∨
    (label (udpPacket 8 3000 19) = some 0 ∧
      [] = nearlyFull.m_lowPackets ++ [udpPacket 8 3000 19] ∧
      0 = (nearlyFull.m_bytesInLowQueue + GetSize (udpPacket 8 3000 19)) % UINT32_MOD ∧
      (nearlyFull.m_bytesInLowQueue + GetSize (udpPacket 8 3000 19) < UINT32_MOD →
        0 = nearlyFull.m_bytesInLowQueue + GetSize (udpPacket 8 3000 19)) ∧
      [udpPacket 1 3000 920, udpPacket 8 3000 19] = nearlyFull.m_highPackets ∧
      999 = nearlyFull.m_bytesInHighQueue) :=
  acceptance_effect nearlyFull (udpPacket 8 3000 19)
    { m_mode := QueueMode.QUEUE_MODE_BYTES, m_maxPackets := 100, m_maxBytes := 1000,
      m_highPackets := [udpPacket 1 3000 920, udpPacket 8 3000 19], m_lowPackets := [],
      m_bytesInHighQueue := 999, m_bytesInLowQueue := 0, m_dropped := [] }
    (by decide)

/-! ## Sequences of calls: the byte accumulators -/

/-- A packet's size is a `uint32_t`. -/
theorem GetSize_lt (p : Packet) : GetSize p < UINT32_MOD :=
  Nat.mod_lt _ (by decide)

/-- The size sum of a bucket after a `push`. -/
theorem sumSizes_append (b : List Packet) (p : Packet) :
    sumSizes (b ++ [p]) = sumSizes b + GetSize p := by
  simp [sumSizes]

/-- The size sum of a bucket with a packet at its head. -/
theorem sumSizes_cons (p : Packet) (b : List Packet) :
    sumSizes (p :: b) = GetSize p + sumSizes b := by
  simp [sumSizes]

/-- `DoEnqueue` keeps each accumulator equal to the size sum of its bucket modulo `2^32`. -/
theorem DoEnqueue_accumulators (q : PriorityQueue) (p : Packet) (ok : Bool)
    (q1 : PriorityQueue) (h : DoEnqueue q p = some (ok, q1))
    (hH : q.m_bytesInHighQueue = sumSizes q.m_highPackets % UINT32_MOD)
    (hL : q.m_bytesInLowQueue = sumSizes q.m_lowPackets % UINT32_MOD) :
    q1.m_bytesInHighQueue = sumSizes q1.m_highPackets % UINT32_MOD ∧
    q1.m_bytesInLowQueue = sumSizes q1.m_lowPackets % UINT32_MOD := by
  rcases DoEnqueue_inv q p ok q1 h with
    ⟨_, ⟨_, _, hq⟩ | ⟨_, _, hq⟩⟩ | ⟨_, ⟨_, _, hq⟩ | ⟨_, _, hq⟩⟩ | ⟨_, _, hq⟩
  · subst hq; exact ⟨hH, hL⟩
  · subst hq
    refine ⟨?_, hL⟩
    show (q.m_bytesInHighQueue + GetSize p) % UINT32_MOD
      = sumSizes (q.m_highPackets ++ [p]) % UINT32_MOD
    rw [sumSizes_append, hH, Nat.mod_add_mod]
  · subst hq; exact ⟨hH, hL⟩
  · subst hq
    refine ⟨hH, ?_⟩
    show (q.m_bytesInLowQueue + GetSize p) % UINT32_MOD
      = sumSizes (q.m_lowPackets ++ [p]) % UINT32_MOD
    rw [sumSizes_append, hL, Nat.mod_add_mod]
  · subst hq; exact ⟨hH, hL⟩

/-- Subtracting a packet's size from the wrapped sum of a bucket that contains it. -/
theorem sub_size_mod (size rest : Nat) (h : size < UINT32_MOD) :
    ((size + rest) % UINT32_MOD + UINT32_MOD - size) % UINT32_MOD = rest % UINT32_MOD := by
  unfold UINT32_MOD at *
  omega

/-- `DoDequeue` keeps each accumulator equal to the size sum of its bucket modulo `2^32`. -/
theorem DoDequeue_accumulators (q : PriorityQueue)
    (hH : q.m_bytesInHighQueue = sumSizes q.m_highPackets % UINT32_MOD)
    (hL : q.m_bytesInLowQueue = sumSizes q.m_lowPackets % UINT32_MOD) :
    (DoDequeue q).2.m_bytesInHighQueue = sumSizes (DoDequeue q).2.m_highPackets % UINT32_MOD ∧
    (DoDequeue q).2.m_bytesInLowQueue = sumSizes (DoDequeue q).2.m_lowPackets % UINT32_MOD := by
  cases hh : q.m_highPackets with
  | cons p rest =>
    rw [hh, sumSizes_cons] at hH
    simp only [DoDequeue, hh]
    refine ⟨?_, hL⟩
    rw [hH]
    exact sub_size_mod (GetSize p) (sumSizes rest) (GetSize_lt p)
  | nil =>
    cases hl : q.m_lowPackets with
    | cons p rest =>
      rw [hl, sumSizes_cons] at hL
      simp only [DoDequeue, hh, hl]
      refine ⟨by rw [hH, hh], ?_⟩
      rw [hL]
      exact sub_size_mod (GetSize p) (sumSizes rest) (GetSize_lt p)
    | nil =>
      simp only [DoDequeue, hh, hl]
      exact ⟨by rw [hH, hh], by rw [hL, hl]⟩

/-- A sequence of calls keeps each accumulator equal to the size sum of its bucket modulo
`2^32`. -/
theorem run_accumulators (calls : List Call) :
    ∀ (q : PriorityQueue) (rs : List Reply) (q2 : PriorityQueue),
      run q calls = some (rs, q2) →
      q.m_bytesInHighQueue = sumSizes q.m_highPackets % UINT32_MOD →
      q.m_bytesInLowQueue = sumSizes q.m_lowPackets % UINT32_MOD →
      q2.m_bytesInHighQueue = sumSizes q2.m_highPackets % UINT32_MOD ∧
      q2.m_bytesInLowQueue = sumSizes q2.m_lowPackets % UINT32_MOD := by
  induction calls with
  | nil =>
    intro q rs q2 h hH hL
    simp only [run, Option.some.injEq, Prod.mk.injEq] at h
    rw [← h.2]
    exact ⟨hH, hL⟩
  | cons c cs ih =>
    intro q rs q2 h hH hL
    simp only [run] at h
    cases hs : step q c with
    | none => simp [hs] at h
    | some r1 =>
      obtain ⟨r, q1⟩ := r1
      simp only [hs] at h
      cases hr : run q1 cs with
      | none => simp [hr] at h
      | some r2 =>
        obtain ⟨rs1, q3⟩ := r2
        simp only [hr, Option.some.injEq, Prod.mk.injEq] at h
        rw [← h.2]
        have hq1 : q1.m_bytesInHighQueue = sumSizes q1.m_highPackets % UINT32_MOD ∧
            q1.m_bytesInLowQueue = sumSizes q1.m_lowPackets % UINT32_MOD := by
          cases c with
          | Enqueue p =>
            simp only [step] at hs
            cases he : DoEnqueue q p with
            | none => simp [he] at hs
            | some e =>
              obtain ⟨ok, q4⟩ := e
              simp only [he, Option.some.injEq, Prod.mk.injEq] at hs
              rw [← hs.2]
              exact DoEnqueue_accumulators q p ok q4 he hH hL
          | Dequeue =>
            simp only [step, Option.some.injEq, Prod.mk.injEq] at hs
            rw [← hs.2]
            exact DoDequeue_accumulators q hH hL
          | Peek =>
            simp only [step, Option.some.injEq, Prod.mk.injEq] at hs
            rw [← hs.2]
            exact ⟨hH, hL⟩
        exact ih q1 rs1 q3 hr hq1.1 hq1.2

/-- A sequence of calls returns whenever `Classify` accepts every packet it offers. -/
theorem run_total (calls : List Call) :
    ∀ (q : PriorityQueue), (∀ p ∈ offered calls, (Classify p).isSome = true) →
      ∃ rs q2, run q calls = some (rs, q2) := by
  induction calls with
  | nil => intro q _; exact ⟨[], q, rfl⟩
  | cons c cs ih =>
    intro q hwf
    cases c with
    | Enqueue p =>
      obtain ⟨ok, q1, he⟩ := DoEnqueue_isSome q p (hwf p (by simp [offered]))
      obtain ⟨rs, q2, hr⟩ := ih q1 (fun x hx => hwf x (by simp [offered, hx]))
      exact ⟨Reply.Enqueue p ok :: rs, q2, by simp [run, step, he, hr]⟩
    | Dequeue =>
      obtain ⟨rs, q2, hr⟩ := ih (DoDequeue q).2 (fun x hx => hwf x (by simpa [offered] using hx))
      exact ⟨Reply.Dequeue (DoDequeue q).1 :: rs, q2, by simp [run, step, hr]⟩
    | Peek =>
      obtain ⟨rs, q2, hr⟩ := ih q (fun x hx => hwf x (by simpa [offered] using hx))
      exact ⟨Reply.Peek (DoPeek q) :: rs, q2, by simp [run, step, hr]⟩

/-- Counterexample to C7 as stated: in packet mode with the default limits, two High packets
of `2^31` bytes are both accepted by the freshly constructed store; the High bucket then
holds `2^32` bytes while `m_bytesInHighQueue` is 0. -/
theorem accumulator_not_exact_sum :
    GetSize (halfPacket 1) = 2147483648 ∧
    (run (PriorityQueue.construct QueueMode.QUEUE_MODE_PACKETS 100 6553500)
        [Call.Enqueue (halfPacket 1), Call.Enqueue (halfPacket 2)]).map
        (fun r => (r.1, r.2.m_bytesInHighQueue, sumSizes r.2.m_highPackets)) =
      some ([Reply.Enqueue (halfPacket 1) true, Reply.Enqueue (halfPacket 2) true],
        0, 4294967296) := by
  decide

/-- C7 (amended): starting from the freshly constructed store, with any mode and limits,
every finite sequence of Enqueue, Dequeue and Peek calls on packets `Classify` accepts
returns, and afterwards `m_bytesInHighQueue` (`m_bytesInLowQueue`) equals the sum of the sizes
of the packets in the High (Low) bucket modulo `2^32`: the exact sum whenever that sum is
below `2^32`. -/
theorem byte_accumulator_invariant (mode : QueueMode) (maxPackets maxBytes : Nat)
    (calls : List Call) (hwf : ∀ p ∈ offered calls, (Classify p).isSome = true) :
    ∃ rs q, run (PriorityQueue.construct mode maxPackets maxBytes) calls = some (rs, q) ∧
      q.m_bytesInHighQueue = sumSizes q.m_highPackets % UINT32_MOD ∧
      q.m_bytesInLowQueue = sumSizes q.m_lowPackets % UINT32_MOD ∧
      (sumSizes q.m_highPackets < UINT32_MOD →
        q.m_bytesInHighQueue = sumSizes q.m_highPackets) ∧
      (sumSizes q.m_lowPackets < UINT32_MOD →
        q.m_bytesInLowQueue = sumSizes q.m_lowPackets) := by
  obtain ⟨rs, q, hr⟩ := run_total calls (PriorityQueue.construct mode maxPackets maxBytes) hwf
  have h := run_accumulators calls _ rs q hr rfl rfl
  refine ⟨rs, q, hr, h.1, h.2, ?_, ?_⟩
  · intro hlt
    rw [h.1, Nat.mod_eq_of_lt hlt]
  · intro hlt
    rw [h.2, Nat.mod_eq_of_lt hlt]

/-- After three calls on packets `Classify` accepts, the accumulators match the buckets. -/
theorem byte_accumulator_invariant_witness :
    ∃ rs q, run (PriorityQueue.construct QueueMode.QUEUE_MODE_BYTES 100 1000)
        [Call.Enqueue (udpPacket 1 3000 70), Call.Enqueue (udpPacket 2 2000 70),
          Call.Dequeue, Call.Peek] = some (rs, q) ∧
      q.m_bytesInHighQueue = sumSizes q.m_highPackets % UINT32_MOD ∧
      q.m_bytesInLowQueue = sumSizes q.m_lowPackets % UINT32_MOD ∧
      (sumSizes q.m_highPackets < UINT32_MOD →
        q.m_bytesInHighQueue = sumSizes q.m_highPackets) ∧
      (sumSizes q.m_lowPackets < UINT32_MOD →
        q.m_bytesInLowQueue = sumSizes q.m_lowPackets) :=
  byte_accumulator_invariant QueueMode.QUEUE_MODE_BYTES 100 1000
    [Call.Enqueue (udpPacket 1 3000 70), Call.Enqueue (udpPacket 2 2000 70),
      Call.Dequeue, Call.Peek] (by decide)

/-! ## Sequences of calls: first in, first out within a bucket -/

/-- A non-empty sequence of calls is its first call followed by the rest. -/
theorem run_cons (q : PriorityQueue) (c : Call) (cs : List Call) (rs : List Reply)
    (q2 : PriorityQueue) (h : run q (c :: cs) = some (rs, q2)) :
    ∃ r q1 rs1, step q c = some (r, q1) ∧ run q1 cs = some (rs1, q2) ∧ rs = r :: rs1 := by
  simp only [run] at h
  cases hs : step q c with
  | none => simp [hs] at h
  | some r1 =>
    obtain ⟨r, q1⟩ := r1
    simp only [hs] at h
    cases hr : run q1 cs with
    | none => simp [hr] at h
    | some r2 =>
      obtain ⟨rs1, q3⟩ := r2
      simp only [hr, Option.some.injEq, Prod.mk.injEq] at h
      exact ⟨r, q1, rs1, rfl, by rw [← h.2, hr], h.1.symm⟩

/-- An accepted packet joins the admitted packets of its own label only. -/
theorem acceptedInto_accept (l : Nat) (p : Packet) (rs : List Reply) :
    acceptedInto l (Reply.Enqueue p true :: rs) =
      if label p = some l then p :: acceptedInto l rs else acceptedInto l rs := by
  by_cases h : label p = some l <;> simp [acceptedInto, accepted, List.filter_cons, h]

/-- A rejected packet is not among the admitted packets. -/
theorem acceptedInto_reject (l : Nat) (p : Packet) (rs : List Reply) :
    acceptedInto l (Reply.Enqueue p false :: rs) = acceptedInto l rs := by
  simp [acceptedInto, accepted]

/-- A `Dequeue` admits nothing. -/
theorem acceptedInto_dequeue (l : Nat) (r : Option Packet) (rs : List Reply) :
    acceptedInto l (Reply.Dequeue r :: rs) = acceptedInto l rs := by
  simp [acceptedInto, accepted]

/-- A `Peek` admits nothing. -/
theorem acceptedInto_peek (l : Nat) (r : Option Packet) (rs : List Reply) :
    acceptedInto l (Reply.Peek r :: rs) = acceptedInto l rs := by
  simp [acceptedInto, accepted]

/-- An `Enqueue` returns no packet. -/
theorem returnedFrom_enqueue (l : Nat) (p : Packet) (ok : Bool) (rs : List Reply) :
    returnedFrom l (Reply.Enqueue p ok :: rs) = returnedFrom l rs := by
  simp [returnedFrom, returned]

/-- A `Peek` removes no packet. -/
theorem returnedFrom_peek (l : Nat) (r : Option Packet) (rs : List Reply) :
    returnedFrom l (Reply.Peek r :: rs) = returnedFrom l rs := by
  simp [returnedFrom, returned]

/-- A `Dequeue` on the empty store returns no packet. -/
theorem returnedFrom_dequeue_none (l : Nat) (rs : List Reply) :
    returnedFrom l (Reply.Dequeue none :: rs) = returnedFrom l rs := by
  simp [returnedFrom, returned]

/-- A packet returned by `Dequeue` joins the returned packets of its own label only. -/
theorem returnedFrom_dequeue_some (l : Nat) (p : Packet) (rs : List Reply) :
    returnedFrom l (Reply.Dequeue (some p) :: rs) =
      if label p = some l then p :: returnedFrom l rs else returnedFrom l rs := by
  by_cases h : label p = some l <;> simp [returnedFrom, returned, List.filter_cons, h]

/-- Over any sequence of calls, on a store whose High bucket holds packets labelled 1 and
whose Low bucket holds packets labelled 0: each bucket's initial packets followed by the
packets admitted into it are the packets returned from it followed by its final packets. -/
theorem run_fifo (calls : List Call) :
    ∀ (q : PriorityQueue) (rs : List Reply) (q2 : PriorityQueue),
      run q calls = some (rs, q2) →
      (∀ p ∈ q.m_highPackets, label p = some 1) →
      (∀ p ∈ q.m_lowPackets, label p = some 0) →
      q.m_highPackets ++ acceptedInto 1 rs = returnedFrom 1 rs ++ q2.m_highPackets ∧
      q.m_lowPackets ++ acceptedInto 0 rs = returnedFrom 0 rs ++ q2.m_lowPackets := by
  induction calls with
  | nil =>
    intro q rs q2 h _ _
    simp only [run, Option.some.injEq, Prod.mk.injEq] at h
    rw [← h.1, ← h.2]
    simp [acceptedInto, returnedFrom, accepted, returned]
  | cons c cs ih =>
    intro q rs q2 h hH hL
    obtain ⟨r, q1, rs1, hs, hr, hrs⟩ := run_cons q c cs rs q2 h
    subst hrs
    cases c with
    | Enqueue p =>
      simp only [step] at hs
      cases he : DoEnqueue q p with
      | none => simp [he] at hs
      | some e =>
        obtain ⟨ok, q4⟩ := e
        simp only [he, Option.some.injEq, Prod.mk.injEq] at hs
        obtain ⟨hr1, hq1⟩ := hs
        subst hr1 hq1
        rcases DoEnqueue_inv q p ok q4 he with
          ⟨hl, ⟨_, hok, hq⟩ | ⟨_, hok, hq⟩⟩ | ⟨hl, ⟨_, hok, hq⟩ | ⟨_, hok, hq⟩⟩ | ⟨hl, hok, hq⟩
        · subst hok hq
          have h1 := ih (Drop q p) rs1 q2 hr hH hL
          simpa [acceptedInto_reject, returnedFrom_enqueue, Drop] using h1
        · subst hok hq
          have h1 := ih _ rs1 q2 hr
            (by
              intro x hx
              simp only [List.mem_append, List.mem_singleton] at hx
              rcases hx with hx | hx
              · exact hH x hx
              · rw [hx]; exact hl)
            hL
          simp only [acceptedInto_accept, returnedFrom_enqueue, hl, if_true]
          simp only [List.append_assoc, List.singleton_append] at h1
          refine ⟨h1.1, ?_⟩
          have hne : ¬ ((1 : Nat) = 0) := by decide
          simpa [hne] using h1.2
        · subst hok hq
          have h1 := ih (Drop q p) rs1 q2 hr hH hL
          simpa [acceptedInto_reject, returnedFrom_enqueue, Drop] using h1
        · subst hok hq
          have h1 := ih _ rs1 q2 hr hH
            (by
              intro x hx
              simp only [List.mem_append, List.mem_singleton] at hx
              rcases hx with hx | hx
              · exact hL x hx
              · rw [hx]; exact hl)
          simp only [acceptedInto_accept, returnedFrom_enqueue, hl, if_true]
          simp only [List.append_assoc, List.singleton_append] at h1
          refine ⟨?_, h1.2⟩
          have hne : ¬ ((0 : Nat) = 1) := by decide
          simpa [hne] using h1.1
        · subst hok hq
          have h1 := ih _ rs1 q2 hr hH hL
          simpa [acceptedInto_reject, returnedFrom_enqueue] using h1
    | Dequeue =>
      simp only [step, Option.some.injEq, Prod.mk.injEq] at hs
      obtain ⟨hr1, hq1⟩ := hs
      subst hr1 hq1
      cases hh : q.m_highPackets with
      | cons p rest =>
        have hlp : label p = some 1 := hH p (by simp [hh])
        have hd : DoDequeue q = (some p,
            { q with
              m_highPackets := rest,
              m_bytesInHighQueue :=
                (q.m_bytesInHighQueue + UINT32_MOD - GetSize p) % UINT32_MOD }) := by
          simp [DoDequeue, hh]
        rw [hd] at hr ⊢
        have h1 := ih _ rs1 q2 hr
          (by intro x hx; exact hH x (by simp [hh]; exact Or.inr hx)) hL
        simp only [acceptedInto_dequeue, returnedFrom_dequeue_some, hlp, if_true]
        refine ⟨by simpa using h1.1, ?_⟩
        have hne : ¬ ((1 : Nat) = 0) := by decide
        simpa [hne] using h1.2
      | nil =>
        cases hl : q.m_lowPackets with
        | cons p rest =>
          have hlp : label p = some 0 := hL p (by simp [hl])
          have hd : DoDequeue q = (some p,
              { q with
                m_lowPackets := rest,
                m_bytesInLowQueue :=
                  (q.m_bytesInLowQueue + UINT32_MOD - GetSize p) % UINT32_MOD }) := by
            simp [DoDequeue, hh, hl]
          rw [hd] at hr ⊢
          have h1 := ih _ rs1 q2 hr hH
            (by intro x hx; exact hL x (by simp [hl]; exact Or.inr hx))
          simp only [acceptedInto_dequeue, returnedFrom_dequeue_some, hlp, if_true]
          refine ⟨?_, by simpa using h1.2⟩
          have hne : ¬ ((0 : Nat) = 1) := by decide
          simpa [hne, hh] using h1.1
        | nil =>
          have hd : DoDequeue q = (none, q) := by simp [DoDequeue, hh, hl]
          rw [hd] at hr ⊢
          have h1 := ih q rs1 q2 hr hH hL
          simpa [acceptedInto_dequeue, returnedFrom_dequeue_none, hh, hl] using h1
    | Peek =>
      simp only [step, Option.some.injEq, Prod.mk.injEq] at hs
      obtain ⟨hr1, hq1⟩ := hs
      subst hr1
      rw [← hq1] at hr
      have h1 := ih q rs1 q2 hr hH hL
      simpa [acceptedInto_peek, returnedFrom_peek] using h1

/-- C2: starting from the freshly constructed store, every finite sequence of calls on
packets `Classify` accepts returns, and for each bucket the packets admitted into it, in the
order of admission, are the packets `Dequeue` returned from it, in the order they were
returned, followed by the packets still in it: the n-th packet returned from a bucket is the
n-th packet admitted into it, so a packet never leaves before one admitted earlier into the
same bucket. -/
theorem fifo_within_class (mode : QueueMode) (maxPackets maxBytes : Nat)
    (calls : List Call) (hwf : ∀ p ∈ offered calls, (Classify p).isSome = true) :
    ∃ rs q, run (PriorityQueue.construct mode maxPackets maxBytes) calls = some (rs, q) ∧
      acceptedInto 1 rs = returnedFrom 1 rs ++ q.m_highPackets ∧
      acceptedInto 0 rs = returnedFrom 0 rs ++ q.m_lowPackets ∧
      (∀ n, n < (returnedFrom 1 rs).length →
        (returnedFrom 1 rs)[n]? = (acceptedInto 1 rs)[n]?) ∧
      (∀ n, n < (returnedFrom 0 rs).length →
        (returnedFrom 0 rs)[n]? = (acceptedInto 0 rs)[n]?) := by
  obtain ⟨rs, q, hr⟩ := run_total calls (PriorityQueue.construct mode maxPackets maxBytes) hwf
  have h := run_fifo calls _ rs q hr
    (by intro p hp; simp [PriorityQueue.construct] at hp)
    (by intro p hp; simp [PriorityQueue.construct] at hp)
  simp only [PriorityQueue.construct, List.nil_append] at h
  refine ⟨rs, q, hr, h.1, h.2, ?_, ?_⟩
  · intro n hn
    rw [h.1, List.getElem?_append_left hn]
  · intro n hn
    rw [h.2, List.getElem?_append_left hn]

/-- Two High packets and a Low packet are enqueued, then two packets are dequeued. -/
theorem fifo_within_class_witness :
    ∃ rs q, run (PriorityQueue.construct QueueMode.QUEUE_MODE_PACKETS 100 6553500)
        [Call.Enqueue (udpPacket 1 3000 70), Call.Enqueue (udpPacket 2 2000 70),
          Call.Enqueue (udpPacket 3 3000 70), Call.Dequeue, Call.Dequeue] = some (rs, q) ∧
      acceptedInto 1 rs = returnedFrom 1 rs ++ q.m_highPackets ∧
      acceptedInto 0 rs = returnedFrom 0 rs ++ q.m_lowPackets ∧
      (∀ n, n < (returnedFrom 1 rs).length →
        (returnedFrom 1 rs)[n]? = (acceptedInto 1 rs)[n]?) ∧
      (∀ n, n < (returnedFrom 0 rs).length →
        (returnedFrom 0 rs)[n]? = (acceptedInto 0 rs)[n]?) :=
  fifo_within_class QueueMode.QUEUE_MODE_PACKETS 100 6553500
    [Call.Enqueue (udpPacket 1 3000 70), Call.Enqueue (udpPacket 2 2000 70),
      Call.Enqueue (udpPacket 3 3000 70), Call.Dequeue, Call.Dequeue] (by decide)

/-! ## The effect of `DoDequeue` and `DoPeek` -/

/-- Counterexample to C11 as stated: after two accepted High packets of `2^31` bytes the High
accumulator is 0; `DoDequeue` returns the first of them and the accumulator becomes `2^31`,
it has not decreased by the packet's size. -/
theorem dequeue_accumulator_wraps :
    run (PriorityQueue.construct QueueMode.QUEUE_MODE_PACKETS 100 6553500)
        [Call.Enqueue (halfPacket 1), Call.Enqueue (halfPacket 2)] =
      some ([Reply.Enqueue (halfPacket 1) true, Reply.Enqueue (halfPacket 2) true],
        twoHalves) ∧
    twoHalves.m_bytesInHighQueue = 0 ∧
    (DoDequeue twoHalves).1 = some (halfPacket 1) ∧
    GetSize (halfPacket 1) = 2147483648 ∧
    (DoDequeue twoHalves).2.m_bytesInHighQueue = 2147483648 ∧
    (DoDequeue twoHalves).2.m_bytesInHighQueue + GetSize (halfPacket 1)
      ≠ twoHalves.m_bytesInHighQueue := by
  decide

/-- C11 (amended): when `DoDequeue` returns a packet, it is the head of its bucket (High if
High is non-empty, else Low), the rest of that bucket stays in order, that bucket's
accumulator becomes the `uint32_t` difference `(bytes - size) mod 2^32` (a decrease by exactly
the packet's size whenever `size ≤ bytes`), and the other bucket's packets and accumulator
are unchanged; when both buckets are empty it returns the null result and changes nothing. -/
theorem dequeue_effect (q : PriorityQueue) :
    (∀ p rest, q.m_highPackets = p :: rest →
      (DoDequeue q).1 = some p ∧ (DoDequeue q).2.m_highPackets = rest ∧
      (DoDequeue q).2.m_bytesInHighQueue
        = (q.m_bytesInHighQueue + UINT32_MOD - GetSize p) % UINT32_MOD ∧
      (GetSize p ≤ q.m_bytesInHighQueue → q.m_bytesInHighQueue < UINT32_MOD →
        (DoDequeue q).2.m_bytesInHighQueue = q.m_bytesInHighQueue - GetSize p) ∧
      (DoDequeue q).2.m_lowPackets = q.m_lowPackets ∧
      (DoDequeue q).2.m_bytesInLowQueue = q.m_bytesInLowQueue) ∧
    (∀ p rest, q.m_highPackets = [] → q.m_lowPackets = p :: rest →
      (DoDequeue q).1 = some p ∧ (DoDequeue q).2.m_lowPackets = rest ∧
      (DoDequeue q).2.m_bytesInLowQueue
        = (q.m_bytesInLowQueue + UINT32_MOD - GetSize p) % UINT32_MOD ∧
      (GetSize p ≤ q.m_bytesInLowQueue → q.m_bytesInLowQueue < UINT32_MOD →
        (DoDequeue q).2.m_bytesInLowQueue = q.m_bytesInLowQueue - GetSize p) ∧
      (DoDequeue q).2.m_highPackets = q.m_highPackets ∧
      (DoDequeue q).2.m_bytesInHighQueue = q.m_bytesInHighQueue) ∧
    (q.m_highPackets = [] → q.m_lowPackets = [] → DoDequeue q = (none, q)) := by
  have arith : ∀ a b : Nat, b ≤ a → a < UINT32_MOD →
      (a + UINT32_MOD - b) % UINT32_MOD = a - b := by
    intro a b hb ha
    unfold UINT32_MOD at *
    omega
  refine ⟨?_, ?_, ?_⟩
  · intro p rest hh
    refine ⟨by simp [DoDequeue, hh], by simp [DoDequeue, hh], by simp [DoDequeue, hh], ?_,
      by simp [DoDequeue, hh], by simp [DoDequeue, hh]⟩
    intro hle hlt
    simp only [DoDequeue, hh]
    exact arith _ _ hle hlt
  · intro p rest hh hl
    refine ⟨by simp [DoDequeue, hh, hl], by simp [DoDequeue, hh, hl],
      by simp [DoDequeue, hh, hl], ?_, by simp [DoDequeue, hh, hl],
      by simp [DoDequeue, hh, hl]⟩
    intro hle hlt
    simp only [DoDequeue, hh, hl]
    exact arith _ _ hle hlt
  · intro hh hl
    simp [DoDequeue, hh, hl]

/-- Dequeuing from a store with one 100-byte packet in each bucket takes the High one. -/
theorem dequeue_effect_witness :
    (DoDequeue bothBuckets).1 = some (udpPacket 1 3000 70) ∧
    (DoDequeue bothBuckets).2.m_highPackets = [] ∧
    (DoDequeue bothBuckets).2.m_bytesInHighQueue
      = (bothBuckets.m_bytesInHighQueue + UINT32_MOD - GetSize (udpPacket 1 3000 70))
        % UINT32_MOD ∧
    (GetSize (udpPacket 1 3000 70) ≤ bothBuckets.m_bytesInHighQueue →
      bothBuckets.m_bytesInHighQueue < UINT32_MOD →
      (DoDequeue bothBuckets).2.m_bytesInHighQueue
        = bothBuckets.m_bytesInHighQueue - GetSize (udpPacket 1 3000 70)) ∧
    (DoDequeue bothBuckets).2.m_lowPackets = bothBuckets.m_lowPackets ∧
    (DoDequeue bothBuckets).2.m_bytesInLowQueue = bothBuckets.m_bytesInLowQueue :=
  (dequeue_effect bothBuckets).1 (udpPacket 1 3000 70) [] rfl

/-- C12: `DoPeek` returns exactly what `DoDequeue` would return from the same state and a
Peek call leaves the state as it is, so any number of consecutive Peek calls all return the
same packet and end in the state they started from. -/
theorem peek_previews_dequeue (q : PriorityQueue) :
    DoPeek q = (DoDequeue q).1 ∧
    step q Call.Peek = some (Reply.Peek (DoPeek q), q) ∧
    (∀ n : Nat, run q (List.replicate n Call.Peek) =
      some (List.replicate n (Reply.Peek (DoPeek q)), q)) := by
  refine ⟨?_, rfl, ?_⟩
  · cases hh : q.m_highPackets with
    | cons p rest => simp [DoPeek, DoDequeue, hh]
    | nil =>
      cases hl : q.m_lowPackets with
      | cons p rest => simp [DoPeek, DoDequeue, hh, hl]
      | nil => simp [DoPeek, DoDequeue, hh, hl]
  · intro n
    induction n with
    | zero => simp [run]
    | succ k ih => simp [List.replicate_succ, run, step, ih]

/-! ## Independence of the two buckets -/

/-- C14: for a packet labelled High, two stores with the same mode, limits and High bucket
(packets and accumulator) give the same `DoEnqueue` result and the same High bucket
afterwards, whatever their Low buckets hold; symmetrically for a packet labelled Low. -/
theorem no_cross_bucket_sharing (qa qb : PriorityQueue) (p : Packet)
    (hm : qa.m_mode = qb.m_mode) (hp : qa.m_maxPackets = qb.m_maxPackets)
    (hb : qa.m_maxBytes = qb.m_maxBytes) :
    (label p = some 1 → qa.m_highPackets = qb.m_highPackets →
      qa.m_bytesInHighQueue = qb.m_bytesInHighQueue →
      ∃ ok qa1 qb1, DoEnqueue qa p = some (ok, qa1) ∧ DoEnqueue qb p = some (ok, qb1) ∧
        qa1.m_highPackets = qb1.m_highPackets ∧
        qa1.m_bytesInHighQueue = qb1.m_bytesInHighQueue) ∧
    (label p = some 0 → qa.m_lowPackets = qb.m_lowPackets →
      qa.m_bytesInLowQueue = qb.m_bytesInLowQueue →
      ∃ ok qa1 qb1, DoEnqueue qa p = some (ok, qa1) ∧ DoEnqueue qb p = some (ok, qb1) ∧
        qa1.m_lowPackets = qb1.m_lowPackets ∧
        qa1.m_bytesInLowQueue = qb1.m_bytesInLowQueue) := by
  constructor
  · intro hl hq hacc
    rw [DoEnqueue_high qa p hl, DoEnqueue_high qb p hl, hm, hp, hb, hq, hacc]
    split
    · exact ⟨false, Drop qa p, Drop qb p, rfl, rfl, by simp [Drop, hq], by simp [Drop, hacc]⟩
    · exact ⟨true, _, _, rfl, rfl, by simp [hq], by simp [hacc]⟩
  · intro hl hq hacc
    rw [DoEnqueue_low qa p hl, DoEnqueue_low qb p hl, hm, hp, hb, hq, hacc]
    split
    · exact ⟨false, Drop qa p, Drop qb p, rfl, rfl, by simp [Drop, hq], by simp [Drop, hacc]⟩
    · exact ⟨true, _, _, rfl, rfl, by simp [hq], by simp [hacc]⟩

/-- A High packet gets the same answer whether the Low bucket is full or empty. -/
theorem no_cross_bucket_sharing_witness :
    ∃ ok qa1 qb1, DoEnqueue lowFull (udpPacket 9 3000 70) = some (ok, qa1) ∧
      DoEnqueue lowEmpty (udpPacket 9 3000 70) = some (ok, qb1) ∧
      qa1.m_highPackets = qb1.m_highPackets ∧
      qa1.m_bytesInHighQueue = qb1.m_bytesInHighQueue :=
  (no_cross_bucket_sharing lowFull lowEmpty (udpPacket 9 3000 70) rfl rfl rfl).1
    (by decide) rfl rfl

/-! ## Default configuration -/

/-- C16: the registered attribute defaults are Mode = `QUEUE_MODE_PACKETS`, MaxPackets = 100
and MaxBytes = `100 * 65535` = 6553500, and a freshly constructed store has both buckets
empty and both byte accumulators equal to 0. -/
theorem default_configuration :
    GetTypeId.Mode = QueueMode.QUEUE_MODE_PACKETS ∧
    GetTypeId.MaxPackets = 100 ∧
    GetTypeId.MaxBytes = 6553500 ∧
    (∀ (mode : QueueMode) (maxPackets maxBytes : Nat),
      (PriorityQueue.construct mode maxPackets maxBytes).m_highPackets = [] ∧
      (PriorityQueue.construct mode maxPackets maxBytes).m_lowPackets = [] ∧
      (PriorityQueue.construct mode maxPackets maxBytes).m_bytesInHighQueue = 0 ∧
      (PriorityQueue.construct mode maxPackets maxBytes).m_bytesInLowQueue = 0) := by
  refine ⟨rfl, rfl, by decide, ?_⟩
  intro mode maxPackets maxBytes
  exact ⟨rfl, rfl, rfl, rfl⟩

/-! ## The fate of a packet labelled 2 -/

/-- C20: for every store state, mode and limits, a TCP packet (protocol 6) is labelled 2 and
`DoEnqueue` returns `false` with the state exactly as it was: both buckets and both byte
accumulators are unchanged and `Drop` is not called. -/
theorem tcp_fate (q : PriorityQueue) (p : Packet) (ppp : PppHeader) (ip : Ipv4Header)
    (rest : List Header) (hp : p.headers = Header.ppp ppp :: Header.ipv4 ip :: rest)
    (h6 : ip.protocol = 6) :
    Classify p = some (2, p) ∧
    ∃ q1, DoEnqueue q p = some (false, q1) ∧
      q1.m_highPackets = q.m_highPackets ∧ q1.m_lowPackets = q.m_lowPackets ∧
      q1.m_bytesInHighQueue = q.m_bytesInHighQueue ∧
      q1.m_bytesInLowQueue = q.m_bytesInLowQueue ∧
      q1.m_dropped = q.m_dropped ∧ q1 = q := by
  have hc := Classify_tcp p ppp ip rest hp h6
  have hl : label p = some 2 := by simp [label, hc]
  exact ⟨hc, q, DoEnqueue_other q p hl, rfl, rfl, rfl, rfl, rfl, rfl⟩

/-- A TCP packet offered to a store with both buckets empty. -/
theorem tcp_fate_witness :
    Classify (tcpPacket 4 58) = some (2, tcpPacket 4 58) ∧
    ∃ q1, DoEnqueue lowEmpty (tcpPacket 4 58) = some (false, q1) ∧
      q1.m_highPackets = lowEmpty.m_highPackets ∧ q1.m_lowPackets = lowEmpty.m_lowPackets ∧
      q1.m_bytesInHighQueue = lowEmpty.m_bytesInHighQueue ∧
      q1.m_bytesInLowQueue = lowEmpty.m_bytesInLowQueue ∧
      q1.m_dropped = lowEmpty.m_dropped ∧ q1 = lowEmpty :=
  tcp_fate lowEmpty (tcpPacket 4 58) ⟨33⟩ ⟨6, 1, 2⟩ [Header.other 20 0] rfl rfl

/-- A failed `DoEnqueue` leaves both buckets as they were. -/
theorem rejection_atomic_aux (q : PriorityQueue) (p : Packet) (q1 : PriorityQueue)
    (h : DoEnqueue q p = some (false, q1)) :
    q1.m_highPackets = q.m_highPackets ∧ q1.m_lowPackets = q.m_lowPackets := by
  rcases DoEnqueue_inv q p false q1 h with
    ⟨_, ⟨_, _, hq⟩ | ⟨_, hok, _⟩⟩ | ⟨_, ⟨_, _, hq⟩ | ⟨_, hok, _⟩⟩ | ⟨_, _, hq⟩
  · subst hq; simp [Drop]
  · simp at hok
  · subst hq; simp [Drop]
  · simp at hok
  · subst hq; simp

/-! ## Draining the store -/

/-- Two sequences of calls run one after the other. -/
theorem run_append (a b : List Call) :
    ∀ (q : PriorityQueue) (rs1 : List Reply) (q1 : PriorityQueue) (rs2 : List Reply)
      (q2 : PriorityQueue),
      run q a = some (rs1, q1) → run q1 b = some (rs2, q2) →
      run q (a ++ b) = some (rs1 ++ rs2, q2) := by
  induction a with
  | nil =>
    intro q rs1 q1 rs2 q2 ha hb
    simp only [run, Option.some.injEq, Prod.mk.injEq] at ha
    rw [← ha.1, ha.2]
    simpa using hb
  | cons c cs ih =>
    intro q rs1 q1 rs2 q2 ha hb
    obtain ⟨r, q3, rs3, hs, hr, hrs⟩ := run_cons q c cs rs1 q1 ha
    have h := ih q3 rs3 q1 rs2 q2 hr hb
    subst hrs
    simp [run, hs, h]

/-- As many `Dequeue` calls as the store holds packets return the High bucket's packets, then
the Low bucket's packets, and leave both buckets empty. -/
theorem run_drain (n : Nat) :
    ∀ (q : PriorityQueue), n = q.m_highPackets.length + q.m_lowPackets.length →
      ∃ q1, run q (List.replicate n Call.Dequeue) =
          some ((q.m_highPackets ++ q.m_lowPackets).map (fun p => Reply.Dequeue (some p)), q1) ∧
        q1.m_highPackets = [] ∧ q1.m_lowPackets = [] := by
  induction n with
  | zero =>
    intro q hn
    have hh : q.m_highPackets = [] := List.length_eq_zero.mp (by omega)
    have hl : q.m_lowPackets = [] := List.length_eq_zero.mp (by omega)
    exact ⟨q, by simp [run, hh, hl], hh, hl⟩
  | succ k ih =>
    intro q hn
    cases hh : q.m_highPackets with
    | cons p rest =>
      have hd : DoDequeue q = (some p,
          { q with
            m_highPackets := rest,
            m_bytesInHighQueue :=
              (q.m_bytesInHighQueue + UINT32_MOD - GetSize p) % UINT32_MOD }) := by
        simp [DoDequeue, hh]
      obtain ⟨q1, hr, h1, h2⟩ := ih
        { q with
          m_highPackets := rest,
          m_bytesInHighQueue :=
            (q.m_bytesInHighQueue + UINT32_MOD - GetSize p) % UINT32_MOD }
        (by simp [hh] at hn; simp; omega)
      exact ⟨q1, by simp [List.replicate_succ, run, step, hd, hr], h1, h2⟩
    | nil =>
      cases hl : q.m_lowPackets with
      | cons p rest =>
        have hd : DoDequeue q = (some p,
            { q with
              m_lowPackets := rest,
              m_bytesInLowQueue :=
                (q.m_bytesInLowQueue + UINT32_MOD - GetSize p) % UINT32_MOD }) := by
          simp [DoDequeue, hh, hl]
        obtain ⟨q1, hr, h1, h2⟩ := ih
          { q with
            m_lowPackets := rest,
            m_bytesInLowQueue :=
              (q.m_bytesInLowQueue + UINT32_MOD - GetSize p) % UINT32_MOD }
          (by simp [hh, hl] at hn; simp [hh]; omega)
        simp only [hh, List.nil_append] at hr hd
        exact ⟨q1, by simp [List.replicate_succ, run, step, hd, hr], h1, h2⟩
      | nil =>
        simp [hh, hl] at hn

/-- On a store with both buckets empty, every `Dequeue` call returns the null result. -/
theorem run_dequeue_empty (k : Nat) (q : PriorityQueue) (hh : q.m_highPackets = [])
    (hl : q.m_lowPackets = []) :
    run q (List.replicate k Call.Dequeue) =
      some (List.replicate k (Reply.Dequeue none), q) := by
  have hd : DoDequeue q = (none, q) := by simp [DoDequeue, hh, hl]
  induction k with
  | zero => simp [run]
  | succ j ih => simp [List.replicate_succ, run, step, hd, ih]

/-- On a store with both buckets empty, as long as no `Enqueue` succeeds no `Dequeue`
returns a packet and the buckets stay empty. -/
theorem run_empty_stays_empty (calls : List Call) :
    ∀ (q : PriorityQueue) (rs : List Reply) (q2 : PriorityQueue),
      q.m_highPackets = [] → q.m_lowPackets = [] →
      run q calls = some (rs, q2) → accepted rs = [] →
      returned rs = [] ∧ q2.m_highPackets = [] ∧ q2.m_lowPackets = [] := by
  induction calls with
  | nil =>
    intro q rs q2 hh hl h _
    simp only [run, Option.some.injEq, Prod.mk.injEq] at h
    rw [← h.1, ← h.2]
    exact ⟨rfl, hh, hl⟩
  | cons c cs ih =>
    intro q rs q2 hh hl h hacc
    obtain ⟨r, q1, rs1, hs, hr, hrs⟩ := run_cons q c cs rs q2 h
    subst hrs
    cases c with
    | Enqueue p =>
      simp only [step] at hs
      cases he : DoEnqueue q p with
      | none => simp [he] at hs
      | some e =>
        obtain ⟨ok, q4⟩ := e
        simp only [he, Option.some.injEq, Prod.mk.injEq] at hs
        obtain ⟨hr1, hq1⟩ := hs
        subst hr1 hq1
        cases ok with
        | true => simp [accepted] at hacc
        | false =>
          have hat := rejection_atomic_aux q p q4 he
          simp only [accepted] at hacc
          have h1 := ih q4 rs1 q2 (by rw [hat.1, hh]) (by rw [hat.2, hl]) hr hacc
          simpa [returned] using h1
    | Dequeue =>
      have hd : DoDequeue q = (none, q) := by simp [DoDequeue, hh, hl]
      simp only [step, hd, Option.some.injEq, Prod.mk.injEq] at hs
      obtain ⟨hr1, hq1⟩ := hs
      subst hr1
      rw [← hq1] at hr
      simp only [accepted] at hacc
      have h1 := ih q rs1 q2 hh hl hr hacc
      simpa [returned] using h1
    | Peek =>
      simp only [step, Option.some.injEq, Prod.mk.injEq] at hs
      obtain ⟨hr1, hq1⟩ := hs
      subst hr1
      rw [← hq1] at hr
      simp only [accepted] at hacc
      have h1 := ih q rs1 q2 hh hl hr hacc
      simpa [returned] using h1

/-- C13: from every store state, the first `highCount + lowCount` consecutive `Dequeue`
calls each return a packet, after them both buckets are empty, and every further `Dequeue`
call returns the null result as long as no `Enqueue` has succeeded in between. -/
theorem drain_property (q : PriorityQueue) :
    ∃ rs q1,
      run q (List.replicate (q.m_highPackets.length + q.m_lowPackets.length) Call.Dequeue)
        = some (rs, q1) ∧
      rs.length = q.m_highPackets.length + q.m_lowPackets.length ∧
      (∀ r ∈ rs, ∃ p, r = Reply.Dequeue (some p)) ∧
      q1.m_highPackets = [] ∧ q1.m_lowPackets = [] ∧
      (∀ k : Nat, run q1 (List.replicate k Call.Dequeue) =
        some (List.replicate k (Reply.Dequeue none), q1)) ∧
      (∀ (calls : List Call) (rs2 : List Reply) (q2 : PriorityQueue),
        run q1 calls = some (rs2, q2) → accepted rs2 = [] → returned rs2 = []) := by
  obtain ⟨q1, hr, hh, hl⟩ := run_drain _ q rfl
  refine ⟨_, q1, hr, by simp, ?_, hh, hl, ?_, ?_⟩
  · intro r hr1
    simp only [List.mem_map] at hr1
    obtain ⟨p, _, hp⟩ := hr1
    exact ⟨p, hp.symm⟩
  · intro k
    exact run_dequeue_empty k q1 hh hl
  · intro calls rs2 q2 h2 hacc
    exact (run_empty_stays_empty calls q1 rs2 q2 hh hl h2 hacc).1

/-- Draining the store that holds one packet in each bucket takes two `Dequeue` calls. -/
theorem drain_property_witness :
    ∃ rs q1,
      run bothBuckets (List.replicate
        (bothBuckets.m_highPackets.length + bothBuckets.m_lowPackets.length) Call.Dequeue)
        = some (rs, q1) ∧
      rs.length = bothBuckets.m_highPackets.length + bothBuckets.m_lowPackets.length ∧
      (∀ r ∈ rs, ∃ p, r = Reply.Dequeue (some p)) ∧
      q1.m_highPackets = [] ∧ q1.m_lowPackets = [] ∧
      (∀ k : Nat, run q1 (List.replicate k Call.Dequeue) =
        some (List.replicate k (Reply.Dequeue none), q1)) ∧
      (∀ (calls : List Call) (rs2 : List Reply) (q2 : PriorityQueue),
        run q1 calls = some (rs2, q2) → accepted rs2 = [] → returned rs2 = []) :=
  drain_property bothBuckets

/-- The packets returned by a run of successful `Dequeue` calls followed by empty ones. -/
theorem returned_drain (xs : List Packet) (k : Nat) :
    returned (xs.map (fun p => Reply.Dequeue (some p))
      ++ List.replicate k (Reply.Dequeue none)) = xs := by
  induction xs with
  | nil =>
    induction k with
    | zero => simp [returned]
    | succ j ih =>
      simp only [List.map_nil, List.nil_append] at ih
      simp [List.replicate_succ, returned, ih]
  | cons x rest ih => simp [returned, ih]

/-- C19: from a store whose High bucket holds `H` and whose Low bucket holds `L` (oldest
first), calling `Dequeue` repeatedly returns the packets of `H` in order, then the packets of
`L` in order, then the null result: the packets returned until `Dequeue` returns empty are
exactly `H ++ L`. -/
theorem drain_order (q : PriorityQueue) (k : Nat) :
    ∃ rs q1,
      run q (List.replicate (q.m_highPackets.length + q.m_lowPackets.length + k) Call.Dequeue)
        = some (rs, q1) ∧
      rs = (q.m_highPackets ++ q.m_lowPackets).map (fun p => Reply.Dequeue (some p))
        ++ List.replicate k (Reply.Dequeue none) ∧
      returned rs = q.m_highPackets ++ q.m_lowPackets := by
  obtain ⟨q1, hr, hh, hl⟩ := run_drain _ q rfl
  have he := run_dequeue_empty k q1 hh hl
  have h := run_append _ _ q _ q1 _ q1 hr he
  rw [← List.replicate_add] at h
  exact ⟨_, q1, h, rfl, returned_drain _ k⟩

/-! ## Capacity bounds -/

/-- A property of the store that `DoEnqueue` (on the packets offered) and `DoDequeue` keep
holds after every sequence of calls. -/
theorem run_invariant (I : PriorityQueue → Prop) (P : Packet → Prop)
    (hE : ∀ (q : PriorityQueue) (p : Packet) (ok : Bool) (q1 : PriorityQueue),
      P p → I q → DoEnqueue q p = some (ok, q1) → I q1)
    (hD : ∀ q : PriorityQueue, I q → I (DoDequeue q).2) (calls : List Call) :
    (∀ p ∈ offered calls, P p) →
    ∀ (q : PriorityQueue) (rs : List Reply) (q2 : PriorityQueue),
      I q → run q calls = some (rs, q2) → I q2 := by
  induction calls with
  | nil =>
    intro _ q rs q2 hI h
    simp only [run, Option.some.injEq, Prod.mk.injEq] at h
    rw [← h.2]
    exact hI
  | cons c cs ih =>
    intro hP q rs q2 hI h
    obtain ⟨r, q1, rs1, hs, hr, _⟩ := run_cons q c cs rs q2 h
    cases c with
    | Enqueue p =>
      simp only [step] at hs
      cases he : DoEnqueue q p with
      | none => simp [he] at hs
      | some e =>
        obtain ⟨ok, q4⟩ := e
        simp only [he, Option.some.injEq, Prod.mk.injEq] at hs
        rw [← hs.2] at hr
        exact ih (fun x hx => hP x (by simp [offered, hx])) q4 rs1 q2
          (hE q p ok q4 (hP p (by simp [offered])) hI he) hr
    | Dequeue =>
      simp only [step, Option.some.injEq, Prod.mk.injEq] at hs
      rw [← hs.2] at hr
      exact ih (fun x hx => hP x (by simpa [offered] using hx)) _ rs1 q2 (hD q hI) hr
    | Peek =>
      simp only [step, Option.some.injEq, Prod.mk.injEq] at hs
      rw [← hs.2] at hr
      exact ih (fun x hx => hP x (by simpa [offered] using hx)) q rs1 q2 hI hr

/-- `DoDequeue` changes neither the mode nor the limits, and shortens no bucket below a
suffix of itself. -/
theorem DoDequeue_config (q : PriorityQueue) :
    (DoDequeue q).2.m_mode = q.m_mode ∧ (DoDequeue q).2.m_maxPackets = q.m_maxPackets ∧
    (DoDequeue q).2.m_maxBytes = q.m_maxBytes ∧
    (DoDequeue q).2.m_highPackets.length ≤ q.m_highPackets.length ∧
    (DoDequeue q).2.m_lowPackets.length ≤ q.m_lowPackets.length := by
  cases hh : q.m_highPackets with
  | cons p rest => simp [DoDequeue, hh]
  | nil =>
    cases hl : q.m_lowPackets with
    | cons p rest => simp [DoDequeue, hh, hl]
    | nil => simp [DoDequeue, hh, hl]

/-- C18: in packet mode, starting from the freshly constructed store, after every finite
sequence of calls on packets `Classify` accepts the High bucket and the Low bucket each hold
at most `maxPackets` packets, so the store holds at most `2 * maxPackets`; and with
`maxPackets = 0` every `Enqueue` fails, whatever the state. -/
theorem packet_capacity_bound :
    (∀ (maxPackets maxBytes : Nat) (calls : List Call),
      (∀ p ∈ offered calls, (Classify p).isSome = true) →
      ∃ rs q,
        run (PriorityQueue.construct QueueMode.QUEUE_MODE_PACKETS maxPackets maxBytes) calls
          = some (rs, q) ∧
        q.m_highPackets.length ≤ maxPackets ∧ q.m_lowPackets.length ≤ maxPackets ∧
        q.m_highPackets.length + q.m_lowPackets.length ≤ 2 * maxPackets) ∧
    (∀ (q : PriorityQueue) (p : Packet), q.m_mode = QueueMode.QUEUE_MODE_PACKETS →
      q.m_maxPackets = 0 → (Classify p).isSome = true →
      ∃ q1, DoEnqueue q p = some (false, q1)) := by
  constructor
  · intro maxPackets maxBytes calls hwf
    obtain ⟨rs, q, hr⟩ := run_total calls
      (PriorityQueue.construct QueueMode.QUEUE_MODE_PACKETS maxPackets maxBytes) hwf
    have hI := run_invariant
      (fun s => s.m_mode = QueueMode.QUEUE_MODE_PACKETS ∧ s.m_maxPackets = maxPackets ∧
        s.m_highPackets.length ≤ maxPackets ∧ s.m_lowPackets.length ≤ maxPackets)
      (fun _ => True)
      (by
        intro s p ok s1 _ hs he
        obtain ⟨hm, hmax, hh, hl⟩ := hs
        rcases DoEnqueue_inv s p ok s1 he with
          ⟨_, ⟨_, _, hq⟩ | ⟨hr1, _, hq⟩⟩ | ⟨_, ⟨_, _, hq⟩ | ⟨hr1, _, hq⟩⟩ | ⟨_, _, hq⟩
        · subst hq; exact ⟨hm, hmax, hh, hl⟩
        · subst hq
          refine ⟨hm, hmax, ?_, hl⟩
          simp only [hm, true_and, not_or, not_le] at hr1
          simp only [List.length_append, List.length_singleton]
          omega
        · subst hq; exact ⟨hm, hmax, hh, hl⟩
        · subst hq
          refine ⟨hm, hmax, hh, ?_⟩
          simp only [hm, true_and, not_or, not_le] at hr1
          simp only [List.length_append, List.length_singleton]
          omega
        · subst hq; exact ⟨hm, hmax, hh, hl⟩)
      (by
        intro s hs
        obtain ⟨hm, hmax, hh, hl⟩ := hs
        have hc := DoDequeue_config s
        exact ⟨by rw [hc.1, hm], by rw [hc.2.1, hmax], by omega, by omega⟩)
      calls (fun _ _ => trivial) _ rs q
      ⟨rfl, rfl, Nat.zero_le _, Nat.zero_le _⟩ hr
    exact ⟨rs, q, hr, hI.2.2.1, hI.2.2.2, by omega⟩
  · intro q p hm h0 hc
    obtain ⟨ok, q1, he⟩ := DoEnqueue_isSome q p hc
    rcases DoEnqueue_inv q p ok q1 he with
      ⟨_, ⟨_, hok, _⟩ | ⟨hr1, _, _⟩⟩ | ⟨_, ⟨_, hok, _⟩ | ⟨hr1, _, _⟩⟩ | ⟨_, hok, _⟩
    · exact ⟨q1, by rw [he, hok]⟩
    · exact absurd (Or.inl ⟨hm, by omega⟩) hr1
    · exact ⟨q1, by rw [he, hok]⟩
    · exact absurd (Or.inl ⟨hm, by omega⟩) hr1
    · exact ⟨q1, by rw [he, hok]⟩

/-- With `maxPackets = 1`, three packets offered: each bucket ends with at most one. -/
theorem packet_capacity_bound_witness :
    ∃ rs q,
      run (PriorityQueue.construct QueueMode.QUEUE_MODE_PACKETS 1 6553500)
        [Call.Enqueue (udpPacket 1 3000 70), Call.Enqueue (udpPacket 2 3000 70),
          Call.Enqueue (udpPacket 3 2000 70)] = some (rs, q) ∧
      q.m_highPackets.length ≤ 1 ∧ q.m_lowPackets.length ≤ 1 ∧
      q.m_highPackets.length + q.m_lowPackets.length ≤ 2 * 1 :=
  packet_capacity_bound.1 1 6553500
    [Call.Enqueue (udpPacket 1 3000 70), Call.Enqueue (udpPacket 2 3000 70),
      Call.Enqueue (udpPacket 3 2000 70)] (by decide)

/-- Counterexample to C17 as stated: in byte mode with `maxBytes = 1000`, a 100-byte High
packet and then a High packet of `2^32 - 50` bytes are both accepted (the `uint32_t` sum wraps
to 50); the non-empty High bucket then holds `2^32 + 50` bytes, and after one `Dequeue` the
still non-empty High bucket has the accumulator `2^32 - 50`: neither is below `maxBytes`. -/
theorem byte_capacity_exceeded :
    (run (PriorityQueue.construct QueueMode.QUEUE_MODE_BYTES 100 1000)
        [Call.Enqueue (udpPacket 1 3000 70), Call.Enqueue hugePacket]).map
        (fun r => (r.1, r.2.m_highPackets, r.2.m_bytesInHighQueue,
          sumSizes r.2.m_highPackets)) =
      some ([Reply.Enqueue (udpPacket 1 3000 70) true, Reply.Enqueue hugePacket true],
        [udpPacket 1 3000 70, hugePacket], 50, 4294967346) ∧
    ¬ (4294967346 < 1000) ∧
    (run (PriorityQueue.construct QueueMode.QUEUE_MODE_BYTES 100 1000)
        [Call.Enqueue (udpPacket 1 3000 70), Call.Enqueue hugePacket, Call.Dequeue]).map
        (fun r => (r.2.m_highPackets, r.2.m_bytesInHighQueue)) =
      some ([hugePacket], 4294967246) ∧
    ¬ (4294967246 < 1000) := by
  decide

/-- What `DoEnqueue` keeps in byte mode when no offered packet is larger than
`2^32 - maxBytes`: each accumulator is the exact size sum of its bucket, below `2^32`, and
below `maxBytes` when the bucket is non-empty. -/
theorem DoEnqueue_byte_bound (mb : Nat) (q : PriorityQueue) (p : Packet) (ok : Bool)
    (q1 : PriorityQueue) (hp : GetSize p + mb ≤ UINT32_MOD)
    (hI : q.m_mode = QueueMode.QUEUE_MODE_BYTES ∧ q.m_maxBytes = mb ∧
      (q.m_bytesInHighQueue = sumSizes q.m_highPackets ∧
        sumSizes q.m_highPackets < UINT32_MOD ∧
        (q.m_highPackets ≠ [] → sumSizes q.m_highPackets < mb)) ∧
      (q.m_bytesInLowQueue = sumSizes q.m_lowPackets ∧
        sumSizes q.m_lowPackets < UINT32_MOD ∧
        (q.m_lowPackets ≠ [] → sumSizes q.m_lowPackets < mb)))
    (he : DoEnqueue q p = some (ok, q1)) :
    q1.m_mode = QueueMode.QUEUE_MODE_BYTES ∧ q1.m_maxBytes = mb ∧
      (q1.m_bytesInHighQueue = sumSizes q1.m_highPackets ∧
        sumSizes q1.m_highPackets < UINT32_MOD ∧
        (q1.m_highPackets ≠ [] → sumSizes q1.m_highPackets < mb)) ∧
      (q1.m_bytesInLowQueue = sumSizes q1.m_lowPackets ∧
        sumSizes q1.m_lowPackets < UINT32_MOD ∧
        (q1.m_lowPackets ≠ [] → sumSizes q1.m_lowPackets < mb)) := by
  obtain ⟨hm, hmax, hH, hL⟩ := hI
  have hsz := GetSize_lt p
  have step1 : ∀ (acc : Nat) (b : List Packet),
      (acc = sumSizes b ∧ sumSizes b < UINT32_MOD ∧ (b ≠ [] → sumSizes b < mb)) →
      ¬ (mb ≤ (acc + GetSize p) % UINT32_MOD) →
      ((acc + GetSize p) % UINT32_MOD = sumSizes (b ++ [p]) ∧
        sumSizes (b ++ [p]) < UINT32_MOD ∧ (b ++ [p] ≠ [] → sumSizes (b ++ [p]) < mb)) := by
    intro acc b hb hnot
    obtain ⟨hacc, _, hne⟩ := hb
    have hlt : acc + GetSize p < UINT32_MOD := by
      by_cases hnil : b = []
      · have h0 : acc = 0 := by rw [hacc, hnil]; rfl
        omega
      · have := hne hnil
        omega
    rw [Nat.mod_eq_of_lt hlt] at hnot
    rw [Nat.mod_eq_of_lt hlt, sumSizes_append, ← hacc]
    exact ⟨rfl, hlt, fun _ => by omega⟩
  rcases DoEnqueue_inv q p ok q1 he with
    ⟨_, ⟨_, _, hq⟩ | ⟨hr1, _, hq⟩⟩ | ⟨_, ⟨_, _, hq⟩ | ⟨hr1, _, hq⟩⟩ | ⟨_, _, hq⟩
  · subst hq; exact ⟨hm, hmax, hH, hL⟩
  · subst hq
    have hnot : ¬ (mb ≤ (q.m_bytesInHighQueue + GetSize p) % UINT32_MOD) := by
      intro hle
      exact hr1 (Or.inr ⟨hm, by rw [hmax]; exact hle⟩)
    exact ⟨hm, hmax, step1 _ _ hH hnot, hL⟩
  · subst hq; exact ⟨hm, hmax, hH, hL⟩
  · subst hq
    have hnot : ¬ (mb ≤ (q.m_bytesInLowQueue + GetSize p) % UINT32_MOD) := by
      intro hle
      exact hr1 (Or.inr ⟨hm, by rw [hmax]; exact hle⟩)
    exact ⟨hm, hmax, hH, step1 _ _ hL hnot⟩
  · subst hq; exact ⟨hm, hmax, hH, hL⟩

/-- What `DoDequeue` keeps of the same property. -/
theorem DoDequeue_byte_bound (mb : Nat) (q : PriorityQueue)
    (hI : q.m_mode = QueueMode.QUEUE_MODE_BYTES ∧ q.m_maxBytes = mb ∧
      (q.m_bytesInHighQueue = sumSizes q.m_highPackets ∧
        sumSizes q.m_highPackets < UINT32_MOD ∧
        (q.m_highPackets ≠ [] → sumSizes q.m_highPackets < mb)) ∧
      (q.m_bytesInLowQueue = sumSizes q.m_lowPackets ∧
        sumSizes q.m_lowPackets < UINT32_MOD ∧
        (q.m_lowPackets ≠ [] → sumSizes q.m_lowPackets < mb))) :
    (DoDequeue q).2.m_mode = QueueMode.QUEUE_MODE_BYTES ∧ (DoDequeue q).2.m_maxBytes = mb ∧
      ((DoDequeue q).2.m_bytesInHighQueue = sumSizes (DoDequeue q).2.m_highPackets ∧
        sumSizes (DoDequeue q).2.m_highPackets < UINT32_MOD ∧
        ((DoDequeue q).2.m_highPackets ≠ [] →
          sumSizes (DoDequeue q).2.m_highPackets < mb)) ∧
      ((DoDequeue q).2.m_bytesInLowQueue = sumSizes (DoDequeue q).2.m_lowPackets ∧
        sumSizes (DoDequeue q).2.m_lowPackets < UINT32_MOD ∧
        ((DoDequeue q).2.m_lowPackets ≠ [] →
          sumSizes (DoDequeue q).2.m_lowPackets < mb)) := by
  obtain ⟨hm, hmax, hH, hL⟩ := hI
  have step1 : ∀ (acc : Nat) (p : Packet) (rest : List Packet),
      (acc = sumSizes (p :: rest) ∧ sumSizes (p :: rest) < UINT32_MOD ∧
        (p :: rest ≠ [] → sumSizes (p :: rest) < mb)) →
      ((acc + UINT32_MOD - GetSize p) % UINT32_MOD = sumSizes rest ∧
        sumSizes rest < UINT32_MOD ∧ (rest ≠ [] → sumSizes rest < mb)) := by
    intro acc p rest hb
    obtain ⟨hacc, hlt, hne⟩ := hb
    have hb2 := hne (by simp)
    rw [sumSizes_cons] at hacc hlt hb2
    refine ⟨?_, by omega, fun _ => by omega⟩
    rw [hacc]
    unfold UINT32_MOD at *
    omega
  cases hh : q.m_highPackets with
  | cons p rest =>
    rw [hh] at hH
    simp only [DoDequeue, hh]
    exact ⟨hm, hmax, step1 _ p rest hH, hL⟩
  | nil =>
    cases hl : q.m_lowPackets with
    | cons p rest =>
      rw [hl] at hL
      rw [hh] at hH
      simp only [DoDequeue, hh, hl]
      exact ⟨hm, hmax, hH, step1 _ p rest hL⟩
    | nil =>
      rw [hl] at hL
      rw [hh] at hH
      simp only [DoDequeue, hh, hl]
      exact ⟨hm, hmax, hH, hL⟩

/-- C17 (amended): in byte mode, starting from the freshly constructed store, after every
finite sequence of calls on packets `Classify` accepts whose sizes are at most
`2^32 - maxBytes` (so that no `uint32_t` sum wraps), each accumulator is the exact sum of the
sizes of its bucket's packets and, for a non-empty bucket, that sum and the accumulator are
strictly below `maxBytes`; and for packets of any size, the accumulator of the bucket a
packet was just accepted into is strictly below `maxBytes`. -/
theorem byte_capacity_bound :
    (∀ (maxPackets maxBytes : Nat) (calls : List Call),
      (∀ p ∈ offered calls, (Classify p).isSome = true) →
      (∀ p ∈ offered calls, GetSize p + maxBytes ≤ UINT32_MOD) →
      ∃ rs q,
        run (PriorityQueue.construct QueueMode.QUEUE_MODE_BYTES maxPackets maxBytes) calls
          = some (rs, q) ∧
        q.m_bytesInHighQueue = sumSizes q.m_highPackets ∧
        q.m_bytesInLowQueue = sumSizes q.m_lowPackets ∧
        (q.m_highPackets ≠ [] →
          sumSizes q.m_highPackets < maxBytes ∧ q.m_bytesInHighQueue < maxBytes) ∧
        (q.m_lowPackets ≠ [] →
          sumSizes q.m_lowPackets < maxBytes ∧ q.m_bytesInLowQueue < maxBytes)) ∧
    (∀ (q : PriorityQueue) (p : Packet) (q1 : PriorityQueue),
      q.m_mode = QueueMode.QUEUE_MODE_BYTES → DoEnqueue q p = some (true, q1) →
      (label p = some 1 → q1.m_bytesInHighQueue < q.m_maxBytes) ∧
      (label p = some 0 → q1.m_bytesInLowQueue < q.m_maxBytes)) := by
  constructor
  · intro maxPackets maxBytes calls hwf hsz
    obtain ⟨rs, q, hr⟩ := run_total calls
      (PriorityQueue.construct QueueMode.QUEUE_MODE_BYTES maxPackets maxBytes) hwf
    have h0 : (0 : Nat) < UINT32_MOD := by decide
    have hI := run_invariant
      (fun s => s.m_mode = QueueMode.QUEUE_MODE_BYTES ∧ s.m_maxBytes = maxBytes ∧
        (s.m_bytesInHighQueue = sumSizes s.m_highPackets ∧
          sumSizes s.m_highPackets < UINT32_MOD ∧
          (s.m_highPackets ≠ [] → sumSizes s.m_highPackets < maxBytes)) ∧
        (s.m_bytesInLowQueue = sumSizes s.m_lowPackets ∧
          sumSizes s.m_lowPackets < UINT32_MOD ∧
          (s.m_lowPackets ≠ [] → sumSizes s.m_lowPackets < maxBytes)))
      (fun p => GetSize p + maxBytes ≤ UINT32_MOD)
      (fun s p ok s1 hp hs he => DoEnqueue_byte_bound maxBytes s p ok s1 hp hs he)
      (fun s hs => DoDequeue_byte_bound maxBytes s hs)
      calls hsz
      (PriorityQueue.construct QueueMode.QUEUE_MODE_BYTES maxPackets maxBytes) rs q
      ⟨rfl, rfl, ⟨rfl, h0, fun h => absurd rfl h⟩, ⟨rfl, h0, fun h => absurd rfl h⟩⟩ hr
    obtain ⟨_, _, ⟨hH1, _, hH3⟩, ⟨hL1, _, hL3⟩⟩ := hI
    refine ⟨rs, q, hr, hH1, hL1, ?_, ?_⟩
    · intro hne
      exact ⟨hH3 hne, by rw [hH1]; exact hH3 hne⟩
    · intro hne
      exact ⟨hL3 hne, by rw [hL1]; exact hL3 hne⟩
  · intro q p q1 hm he
    rcases DoEnqueue_inv q p true q1 he with
      ⟨hl, ⟨_, hok, _⟩ | ⟨hr1, _, hq⟩⟩ | ⟨hl, ⟨_, hok, _⟩ | ⟨hr1, _, hq⟩⟩ | ⟨_, hok, _⟩
    · simp at hok
    · subst hq
      refine ⟨fun _ => ?_, fun h0 => ?_⟩
      · simp only [hm, true_and, not_or, not_le] at hr1
        exact hr1.2
      · rw [hl] at h0
        simp at h0
    · simp at hok
    · subst hq
      refine ⟨fun h1 => ?_, fun _ => ?_⟩
      · rw [hl] at h1
        simp at h1
      · simp only [hm, true_and, not_or, not_le] at hr1
        exact hr1.2
    · simp at hok

/-- In byte mode with `maxBytes = 1000`, three 100-byte packets and a `Dequeue`. -/
theorem byte_capacity_bound_witness :
    ∃ rs q,
      run (PriorityQueue.construct QueueMode.QUEUE_MODE_BYTES 100 1000)
        [Call.Enqueue (udpPacket 1 3000 70), Call.Enqueue (udpPacket 2 3000 70),
          Call.Enqueue (udpPacket 3 2000 70), Call.Dequeue] = some (rs, q) ∧
      q.m_bytesInHighQueue = sumSizes q.m_highPackets ∧
      q.m_bytesInLowQueue = sumSizes q.m_lowPackets ∧
      (q.m_highPackets ≠ [] →
        sumSizes q.m_highPackets < 1000 ∧ q.m_bytesInHighQueue < 1000) ∧
      (q.m_lowPackets ≠ [] →
        sumSizes q.m_lowPackets < 1000 ∧ q.m_bytesInLowQueue < 1000) :=
  byte_capacity_bound.1 100 1000
    [Call.Enqueue (udpPacket 1 3000 70), Call.Enqueue (udpPacket 2 3000 70),
      Call.Enqueue (udpPacket 3 2000 70), Call.Dequeue] (by decide) (by decide)

/-! ## `Classify` restores the packet -/

/-- C15: for every structurally valid packet (PPP header, then IPv4 header, then a UDP header
when the protocol is 17), `Classify` returns a label and hands the packet back identical to
what it received: the PPP and IPv4 headers and, only for protocol 17, the UDP header are
stripped in that order and pushed back in the reverse order; for any other protocol what
follows the IPv4 header is left in place. -/
theorem classify_restores_packet (p : Packet) (ppp : PppHeader) (ip : Ipv4Header)
    (rest : List Header) (hp : p.headers = Header.ppp ppp :: Header.ipv4 ip :: rest)
    (hudp : ip.protocol = 17 → ∃ udp rest1, rest = Header.udp udp :: rest1) :
    (∃ l, Classify p = some (l, p)) ∧
    (∃ p1 p2, RemovePppHeader p = some (ppp, p1) ∧ RemoveIpv4Header p1 = some (ip, p2) ∧
      p2.headers = rest ∧
      AddHeader (Header.ppp ppp) (AddHeader (Header.ipv4 ip) p2) = p ∧
      (ip.protocol = 17 → ∃ udp p3, RemoveUdpHeader p2 = some (udp, p3) ∧
        ClassifyUdp p2 = some (if udp.destinationPort = 3000 then 1 else 0, p2) ∧
        AddHeader (Header.udp udp) p3 = p2) ∧
      (ip.protocol ≠ 17 →
        Classify p = some (if ip.protocol = 6 then 2 else 0,
          AddHeader (Header.ppp ppp) (AddHeader (Header.ipv4 ip) p2)))) := by
  obtain ⟨uid, hs, pl⟩ := p
  simp only at hp
  subst hp
  constructor
  · by_cases h17 : ip.protocol = 17
    · obtain ⟨udp, rest1, hr⟩ := hudp h17
      exact ⟨_, Classify_udp _ ppp ip udp rest1 (by rw [hr]) h17⟩
    · by_cases h6 : ip.protocol = 6
      · exact ⟨2, Classify_tcp _ ppp ip rest rfl h6⟩
      · exact ⟨0, Classify_other _ ppp ip rest rfl h17 h6⟩
  · refine ⟨⟨uid, Header.ipv4 ip :: rest, pl⟩, ⟨uid, rest, pl⟩, rfl, rfl, rfl, rfl, ?_, ?_⟩
    · intro h17
      obtain ⟨udp, rest1, hr⟩ := hudp h17
      subst hr
      refine ⟨udp, ⟨uid, rest1, pl⟩, rfl, ?_, rfl⟩
      by_cases h3000 : udp.destinationPort = 3000 <;>
        simp [ClassifyUdp, RemoveUdpHeader, AddHeader, h3000]
    · intro h17
      by_cases h6 : ip.protocol = 6
      · simp [Classify, RemovePppHeader, RemoveIpv4Header, AddHeader, h6]
      · simp [Classify, RemovePppHeader, RemoveIpv4Header, AddHeader, h6, h17]

/-- A UDP packet comes back from `Classify` as it went in. -/
theorem classify_restores_packet_witness :
    ∃ l, Classify (udpPacket 1 2000 70) = some (l, udpPacket 1 2000 70) :=
  (classify_restores_packet (udpPacket 1 2000 70) ⟨33⟩ ⟨17, 1, 2⟩ [Header.udp ⟨49153, 2000⟩]
    rfl (fun _ => ⟨⟨49153, 2000⟩, [], rfl⟩)).1

end ns3
